import Mathlib

/-!
# BaikalDB meta server: `ClusterManager` (include/meta_server/cluster_manager.h)

A shallow embedding of the inline part of `cluster_manager.h`: the `Instance`
record and its constructors, the instance registry, the per-instance placement
index (region lists and region counts), the health transitions and the snapshot
key builders, followed by theorems about them.

Conventions of the embedding:

* `std::unordered_map<K, V>` is an association list `UMap K V`; the order of the
  list is the (unspecified) iteration order of the container.  `find` returns the
  first entry with the key, `operator[]` is `UMap.subscript`, which inserts a
  value-initialised entry when the key is absent.  A container built by the C++
  code never holds a key twice (`UMap.WF`).
* `int64_t` is `Int`; arithmetic on it goes through `wrap_int64` (two's complement
  wrap-around at 64 bits).
* `butil::gettimeofday_us()` is an input: a reading `now`, or for a loop the
  sequence `clock 0, clock 1, ...` of the readings of its iterations.
* a method is a function from the state before the call to the returned value
  and the state after it.
-/

namespace baikaldb

/-! ## Data model -/

/-- Values of the protobuf enum `pb::Status`.  The enum is declared in
`proto/meta.interface.pb.h`; this header uses the enumerators `NORMAL` and `DEAD`,
every other enumerator of the enum is `other n`. -/
inductive Status where
  | NORMAL : Status
  | DEAD : Status
  | other (n : Nat) : Status
  deriving DecidableEq

/-- The struct `InstanceStateInfo`. -/
structure InstanceStateInfo where
  timestamp : Int
  state : Status
  deriving DecidableEq

/-- The message `pb::InstanceInfo`, as far as this header reads it: each field is
the value of the accessor of the same name (`used_size` is what `used_size()`
returns, whether or not the field is set). -/
structure InstanceInfo where
  address : String
  capacity : Int
  has_used_size : Bool
  used_size : Int
  resource_tag : String
  physical_room : String
  deriving DecidableEq

/-- The struct `Instance`. -/
structure Instance where
  address : String
  capacity : Int
  used_size : Int
  resource_tag : String
  physical_room : String
  instance_status : InstanceStateInfo
  deriving DecidableEq

/-- `Instance::Instance()`.  The strings are empty; the two `int64_t` members are
left uninitialised by the constructor, so their values are inputs. -/
def Instance.ctor_default (now : Int) (capacity used_size : Int) : Instance :=
  { address := "", capacity := capacity, used_size := used_size, resource_tag := "",
    physical_room := "", instance_status := { timestamp := now, state := Status.NORMAL } }

/-- `Instance::Instance(const pb::InstanceInfo&)`, `now` being the reading of
`butil::gettimeofday_us()` in its body. -/
def Instance.ctor (instance_info : InstanceInfo) (now : Int) : Instance :=
  let init : Instance :=
    { address := instance_info.address
      capacity := instance_info.capacity
      used_size := instance_info.capacity
      resource_tag := instance_info.resource_tag
      physical_room := instance_info.physical_room
      instance_status := { timestamp := 0, state := Status.NORMAL } }
  let init := if instance_info.has_used_size then { init with used_size := instance_info.used_size } else init
  let init := { init with instance_status := { init.instance_status with state := Status.NORMAL } }
  { init with instance_status := { init.instance_status with timestamp := now } }

/-! ## `std::unordered_map` -/

/-- An `std::unordered_map<K, V>`: its entries in iteration order. -/
abbrev UMap (K : Type) (V : Type) := List (K × V)

namespace UMap

variable {K V : Type} [DecidableEq K]

/-- The keys, in iteration order. -/
def keys (m : UMap K V) : List K := m.map Prod.fst

/-- No key occurs twice. -/
def WF (m : UMap K V) : Prop := (keys m).Nodup

instance (m : UMap K V) : Decidable (WF m) := by
  unfold WF; infer_instance

/-- The value `m.find(k)` points to, `none` for `m.end()`. -/
def find : UMap K V → K → Option V
  | [], _ => none
  | (a, b) :: rest, k => if a = k then some b else find rest k

/-- Run `f` on the value of the entry `m.find(k)` points to; nothing when the key
is absent. -/
def modify : UMap K V → K → (V → V) → UMap K V
  | [], _, _ => []
  | (a, b) :: rest, k, f => if a = k then (a, f b) :: rest else (a, b) :: modify rest k f

/-- Run `f` on the reference `m[k]`: `operator[]` inserts the value-initialised
`dflt` first when the key is absent. -/
def subscript : UMap K V → K → V → (V → V) → UMap K V
  | [], k, dflt, f => [(k, f dflt)]
  | (a, b) :: rest, k, dflt, f =>
    if a = k then (a, f b) :: rest else (a, b) :: subscript rest k dflt f

/-- The assignment `m[k] = v`. -/
def assign (m : UMap K V) (k : K) (v : V) : UMap K V :=
  subscript m k v (fun _ => v)

end UMap

/-- Arithmetic on `int64_t`: the result wrapped to 64 bits, two's complement. -/
def wrap_int64 (x : Int) : Int := (x + 2 ^ 63) % 2 ^ 64 - 2 ^ 63

abbrev TableRegionMap := UMap Int (List Int)

abbrev TableRegionCountMap := UMap Int Int

/-- The data members of `ClusterManager` (the mutexes and the back-pointer to the
state machine apart). -/
structure ClusterManager where
  _physical_info : UMap String String
  _logical_physical_map : UMap String (List String)
  _instance_info : UMap String Instance
  _last_rolling_instance : String
  _instance_regions_map : UMap String TableRegionMap
  _instance_regions_count_map : UMap String TableRegionCountMap
  deriving DecidableEq

/-- The string constants of `MetaServer` (declared in `meta_server.h`) that the
key builders concatenate. -/
structure MetaServer where
  CLUSTER_IDENTIFY : String
  LOGICAL_CLUSTER_IDENTIFY : String
  LOGICAL_KEY : String
  PHYSICAL_CLUSTER_IDENTIFY : String
  INSTANCE_CLUSTER_IDENTIFY : String
  deriving DecidableEq

/-! ## The inline methods of `ClusterManager` -/

namespace UMap

variable {K V : Type} [DecidableEq K]

/-- Read `m[k]`: the map after the access (`operator[]` may have inserted
`dflt`) and the value read. -/
def read (m : UMap K V) (k : K) (dflt : V) : V × UMap K V :=
  let m1 := subscript m k dflt id
  ((find m1 k).getD dflt, m1)

end UMap

/-- The loop of `get_instance_count`, `count` being the counter so far. -/
def get_instance_count_loop (resource_tag : String) : UMap String Instance → Int → Int
  | [], count => count
  | instance_info :: rest, count =>
    if instance_info.2.resource_tag = resource_tag then
      get_instance_count_loop resource_tag rest (wrap_int64 (count + 1))
    else
      get_instance_count_loop resource_tag rest count

/-- `ClusterManager::get_instance_count(resource_tag)`. -/
def get_instance_count (s : ClusterManager) (resource_tag : String) : Int × ClusterManager :=
  (get_instance_count_loop resource_tag s._instance_info 0, s)

/-- The loop of `get_peer_count(table_id)` over the entries of
`_instance_regions_count_map`: the final counter and the entries after the loop
(`region_count.second[table_id]` goes through `operator[]`). -/
def get_peer_count_table_loop (table_id : Int) :
    UMap String TableRegionCountMap → Int → Int × UMap String TableRegionCountMap
  | [], count => (count, [])
  | region_count :: rest, count =>
    if UMap.find region_count.2 table_id ≠ none then
      let r := UMap.read region_count.2 table_id 0
      let out := get_peer_count_table_loop table_id rest (wrap_int64 (count + r.1))
      (out.1, (region_count.1, r.2) :: out.2)
    else
      let out := get_peer_count_table_loop table_id rest count
      (out.1, region_count :: out.2)

/-- `ClusterManager::get_peer_count(int64_t table_id)`. -/
def get_peer_count_table (s : ClusterManager) (table_id : Int) : Int × ClusterManager :=
  let out := get_peer_count_table_loop table_id s._instance_regions_count_map 0
  (out.1, { s with _instance_regions_count_map := out.2 })

/-- `ClusterManager::get_peer_count(const std::string& instance, int64_t table_id)`. -/
def get_peer_count (s : ClusterManager) (inst : String) (table_id : Int) : Int × ClusterManager :=
  if UMap.find s._instance_regions_count_map inst = none then
    (0, s)
  else
    let r1 := UMap.read s._instance_regions_count_map inst []
    if UMap.find r1.1 table_id = none then
      (0, { s with _instance_regions_count_map := r1.2 })
    else
      let m2 := UMap.subscript r1.2 inst [] (fun t => UMap.subscript t table_id 0 id)
      (((UMap.find m2 inst).getD []).find table_id |>.getD 0,
        { s with _instance_regions_count_map := m2 })

/-- `ClusterManager::sub_peer_count(instance, table_id)`. -/
def sub_peer_count (s : ClusterManager) (inst : String) (table_id : Int) : ClusterManager :=
  if UMap.find s._instance_regions_count_map inst = none then
    s
  else
    let r1 := UMap.read s._instance_regions_count_map inst []
    if UMap.find r1.1 table_id = none then
      { s with _instance_regions_count_map := r1.2 }
    else
      let m2 := UMap.subscript r1.2 inst []
        (fun t => UMap.subscript t table_id 0 (fun c => wrap_int64 (c - 1)))
      { s with _instance_regions_count_map := m2 }

/-- The loop of `reset_instance_status` over the entries of `_instance_info`, from
iteration `i` on; `clock i` is the clock reading of iteration `i`. -/
def reset_instance_status_loop (clock : Nat → Int) :
    Nat → UMap String Instance → UMap String TableRegionMap → UMap String TableRegionCountMap →
      UMap String Instance × UMap String TableRegionMap × UMap String TableRegionCountMap
  | _, [], regions, counts => ([], regions, counts)
  | i, instance_pair :: rest, regions, counts =>
    let second := { instance_pair.2 with
      instance_status := { instance_pair.2.instance_status with state := Status.NORMAL } }
    let second := { second with
      instance_status := { second.instance_status with timestamp := clock i } }
    let out := reset_instance_status_loop clock (i + 1) rest
      (UMap.assign regions instance_pair.1 []) (UMap.assign counts instance_pair.1 [])
    ((instance_pair.1, second) :: out.1, out.2.1, out.2.2)

/-- `ClusterManager::reset_instance_status()`. -/
def reset_instance_status (clock : Nat → Int) (s : ClusterManager) : ClusterManager :=
  let out := reset_instance_status_loop clock 0 s._instance_info
    s._instance_regions_map s._instance_regions_count_map
  { s with _instance_info := out.1, _instance_regions_map := out.2.1,
           _instance_regions_count_map := out.2.2 }

/-- `ClusterManager::set_instance_regions(instance, instance_regions, instance_regions_count)`. -/
def set_instance_regions (s : ClusterManager) (inst : String)
    (instance_regions : TableRegionMap) (instance_regions_count : TableRegionCountMap) :
    ClusterManager :=
  { s with
    _instance_regions_map := UMap.assign s._instance_regions_map inst instance_regions
    _instance_regions_count_map :=
      UMap.assign s._instance_regions_count_map inst instance_regions_count }

/-- `ClusterManager::update_instance_info(instance_info)`, `now` being the reading
of `butil::gettimeofday_us()`.  Past the `find` guard each `_instance_info[instance]`
is the entry found. -/
def update_instance_info (s : ClusterManager) (instance_info : InstanceInfo) (now : Int) :
    Int × ClusterManager :=
  let inst := instance_info.address
  if UMap.find s._instance_info inst = none then
    (-1, s)
  else
    let m := UMap.modify s._instance_info inst
      (fun x => { x with capacity := instance_info.capacity })
    let m := UMap.modify m inst (fun x => { x with used_size := instance_info.used_size })
    let m := UMap.modify m inst (fun x => { x with resource_tag := instance_info.resource_tag })
    let m := UMap.modify m inst
      (fun x => { x with instance_status := { x.instance_status with state := Status.NORMAL } })
    let m := UMap.modify m inst
      (fun x => { x with instance_status := { x.instance_status with timestamp := now } })
    (0, { s with _instance_info := m })

/-- `ClusterManager::set_dead_for_instance(dead_instance)`. -/
def set_dead_for_instance (s : ClusterManager) (dead_instance : String) : Int × ClusterManager :=
  if UMap.find s._instance_info dead_instance = none then
    (-1, s)
  else
    let m := UMap.modify s._instance_info dead_instance
      (fun x => { x with instance_status := { x.instance_status with timestamp := 0 } })
    let m := UMap.modify m dead_instance
      (fun x => { x with instance_status := { x.instance_status with state := Status.DEAD } })
    (0, { s with _instance_info := m })

/-- `ClusterManager::construct_logical_key()`. -/
def construct_logical_key (ms : MetaServer) : String :=
  ms.CLUSTER_IDENTIFY ++ ms.LOGICAL_CLUSTER_IDENTIFY ++ ms.LOGICAL_KEY

/-- `ClusterManager::construct_physical_key(logical_key)`. -/
def construct_physical_key (ms : MetaServer) (logical_key : String) : String :=
  ms.CLUSTER_IDENTIFY ++ ms.PHYSICAL_CLUSTER_IDENTIFY ++ logical_key

/-- `ClusterManager::construct_instance_key(instance)`. -/
def construct_instance_key (ms : MetaServer) (inst : String) : String :=
  ms.CLUSTER_IDENTIFY ++ ms.INSTANCE_CLUSTER_IDENTIFY ++ inst

/-! ## Sequences of calls -/

/-- One applied log entry: the call, its arguments and, for `update_instance_info`,
the clock reading of its application. -/
inductive LogEntry where
  | update_instance_info (instance_info : InstanceInfo) (now : Int) : LogEntry
  | set_dead_for_instance (dead_instance : String) : LogEntry
  | set_instance_regions (inst : String) (instance_regions : TableRegionMap)
      (instance_regions_count : TableRegionCountMap) : LogEntry
  deriving DecidableEq

/-- Apply one entry: the return code (`none` for the `void` method) and the state
after it. -/
def LogEntry.apply (e : LogEntry) (s : ClusterManager) : Option Int × ClusterManager :=
  match e with
  | LogEntry.update_instance_info instance_info now =>
    let r := baikaldb.update_instance_info s instance_info now
    (some r.1, r.2)
  | LogEntry.set_dead_for_instance dead_instance =>
    let r := baikaldb.set_dead_for_instance s dead_instance
    (some r.1, r.2)
  | LogEntry.set_instance_regions inst instance_regions instance_regions_count =>
    (none, baikaldb.set_instance_regions s inst instance_regions instance_regions_count)

/-- Apply the entries in order: the return codes, entry by entry, and the final
state. -/
def replay : List LogEntry → ClusterManager → List (Option Int) × ClusterManager
  | [], s => ([], s)
  | e :: rest, s =>
    let r := e.apply s
    let out := replay rest r.2
    (r.1 :: out.1, out.2)

/-- A call of one of the state-changing inline methods, with its arguments and
clock readings. -/
inductive Call where
  | update_instance_info (instance_info : InstanceInfo) (now : Int) : Call
  | set_dead_for_instance (dead_instance : String) : Call
  | reset_instance_status (clock : Nat → Int) : Call
  | set_instance_regions (inst : String) (instance_regions : TableRegionMap)
      (instance_regions_count : TableRegionCountMap) : Call
  | sub_peer_count (inst : String) (table_id : Int) : Call

/-- The state after a call. -/
def Call.run (c : Call) (s : ClusterManager) : ClusterManager :=
  match c with
  | Call.update_instance_info instance_info now =>
    (baikaldb.update_instance_info s instance_info now).2
  | Call.set_dead_for_instance dead_instance => (baikaldb.set_dead_for_instance s dead_instance).2
  | Call.reset_instance_status clock => baikaldb.reset_instance_status clock s
  | Call.set_instance_regions inst instance_regions instance_regions_count =>
    baikaldb.set_instance_regions s inst instance_regions instance_regions_count
  | Call.sub_peer_count inst table_id => baikaldb.sub_peer_count s inst table_id

/-- The state after a sequence of calls. -/
def runCalls : List Call → ClusterManager → ClusterManager
  | [], s => s
  | c :: rest, s => runCalls rest (c.run s)

/-- An instance as one of the two constructors of `Instance` leaves it. -/
def FreshInstance (x : Instance) : Prop :=
  (∃ instance_info now, x = Instance.ctor instance_info now) ∨
    (∃ now capacity used_size, x = Instance.ctor_default now capacity used_size)

/-- A state whose registry holds freshly constructed instances only; the other
members are arbitrary. -/
def FreshRegistry (s : ClusterManager) : Prop :=
  ∀ p ∈ s._instance_info, FreshInstance p.2

/-- The states the calls lead to from a registry of freshly constructed instances. -/
def Reachable (s : ClusterManager) : Prop :=
  ∃ s0 calls, FreshRegistry s0 ∧ s = runCalls calls s0

/-- The address has an entry in the instance registry. -/
def Registered (s : ClusterManager) (address : String) : Prop :=
  UMap.find s._instance_info address ≠ none

instance (s : ClusterManager) (address : String) : Decidable (Registered s address) := by
  unfold Registered; infer_instance

/-- The record `update_instance_info` leaves in place of `x`: its five
assignments in one. -/
def Instance.refreshed (instance_info : InstanceInfo) (now : Int) (x : Instance) : Instance :=
  { address := x.address
    capacity := instance_info.capacity
    used_size := instance_info.used_size
    resource_tag := instance_info.resource_tag
    physical_room := x.physical_room
    instance_status := { timestamp := now, state := Status.NORMAL } }

/-- The record `set_dead_for_instance` leaves in place of `x`: its two
assignments in one. -/
def Instance.marked_dead (x : Instance) : Instance :=
  { address := x.address
    capacity := x.capacity
    used_size := x.used_size
    resource_tag := x.resource_tag
    physical_room := x.physical_room
    instance_status := { timestamp := 0, state := Status.DEAD } }

/-- The count `get_peer_count(instance, table_id)` returns, read off the index. -/
def peer_count_of (counts : UMap String TableRegionCountMap) (inst : String) (table_id : Int) :
    Int :=
  match UMap.find counts inst with
  | none => 0
  | some t => (UMap.find t table_id).getD 0

/-- Strip the leading `lead.size()` characters of a key, as `key.substr(lead.size())`
does for a key that starts with `lead`. -/
def strip_leading (lead key : String) : String :=
  ⟨key.data.drop lead.data.length⟩

/-- The constants of a deployment, for the sample keys. -/
def sample_meta_server : MetaServer :=
  { CLUSTER_IDENTIFY := "\x01"
    LOGICAL_CLUSTER_IDENTIFY := "\x01"
    LOGICAL_KEY := "\x01"
    PHYSICAL_CLUSTER_IDENTIFY := "\x02"
    INSTANCE_CLUSTER_IDENTIFY := "\x03" }

/-- The registry key an entry writes to. -/
def LogEntry.key (e : LogEntry) : String :=
  match e with
  | LogEntry.update_instance_info instance_info _ => instance_info.address
  | LogEntry.set_dead_for_instance dead_instance => dead_instance
  | LogEntry.set_instance_regions inst _ _ => inst

/-- What an entry does to the registry record of its key. -/
def LogEntry.onInstance (e : LogEntry) : Instance → Instance :=
  match e with
  | LogEntry.update_instance_info instance_info now => Instance.refreshed instance_info now
  | LogEntry.set_dead_for_instance _ => Instance.marked_dead
  | LogEntry.set_instance_regions _ _ _ => id

/-- What an entry does to the instance registry. -/
def LogEntry.onInfo (m : UMap String Instance) (e : LogEntry) : UMap String Instance :=
  UMap.modify m e.key e.onInstance

/-- What an entry does to `_instance_regions_map`. -/
def LogEntry.onRegions (m : UMap String TableRegionMap) (e : LogEntry) :
    UMap String TableRegionMap :=
  match e with
  | LogEntry.set_instance_regions inst instance_regions _ => UMap.assign m inst instance_regions
  | _ => m

/-- What an entry does to `_instance_regions_count_map`. -/
def LogEntry.onCounts (m : UMap String TableRegionCountMap) (e : LogEntry) :
    UMap String TableRegionCountMap :=
  match e with
  | LogEntry.set_instance_regions inst _ instance_regions_count =>
    UMap.assign m inst instance_regions_count
  | _ => m

/-- The key of a `set_instance_regions` entry is in the map (true of every other
entry). -/
def LogEntry.PresentIn {V : Type} (m : UMap String V) (e : LogEntry) : Prop :=
  match e with
  | LogEntry.set_instance_regions inst _ _ => UMap.find m inst ≠ none
  | _ => True

/-- The health invariant: every instance of the registry is NORMAL or DEAD, and a DEAD
one has timestamp 0. -/
def HealthInv (s : ClusterManager) : Prop :=
  ∀ p ∈ s._instance_info,
    (p.2.instance_status.state = Status.NORMAL ∨ p.2.instance_status.state = Status.DEAD) ∧
      (p.2.instance_status.state = Status.DEAD → p.2.instance_status.timestamp = 0)

/-- The calls that may bring the instance at `address` back from DEAD:
`update_instance_info` for that address, and `reset_instance_status`. -/
def Call.revives (c : Call) (address : String) : Prop :=
  match c with
  | Call.update_instance_info instance_info _ => instance_info.address = address
  | Call.reset_instance_status _ => True
  | _ => False

/-- A registry of two freshly constructed stores, with a placement index for the
first. -/
def fresh_state : ClusterManager :=
  { _physical_info := [("room1", "logical1")]
    _logical_physical_map := [("logical1", ["room1"])]
    _instance_info :=
      [("10.0.0.1:8110", Instance.ctor ⟨"10.0.0.1:8110", 100, false, 0, "ssd", "room1"⟩ 7),
       ("10.0.0.2:8110", Instance.ctor ⟨"10.0.0.2:8110", 50, true, 3, "hdd", "room1"⟩ 9)]
    _last_rolling_instance := ""
    _instance_regions_map := [("10.0.0.1:8110", [(1, [4, 5])])]
    _instance_regions_count_map := [("10.0.0.1:8110", [(1, 2)])] }

/-- The state after `set_instance_regions` for a store that is not registered, on
`fresh_state`. -/
def orphan_state : ClusterManager :=
  set_instance_regions fresh_state "10.0.0.9:8110" [(1, [6, 7, 8])] [(1, 3)]

/-- The sum, over the addresses of the placement count index, of what
`get_peer_count(address, table_id)` returns: the cluster-wide count as the per-instance
query defines it. -/
def peer_count_sum (s : ClusterManager) (table_id : Int) : Int :=
  ((UMap.keys s._instance_regions_count_map).map
    (fun address => (get_peer_count s address table_id).1)).sum

/-- The resource tags of the registry, entry by entry. -/
def registry_tags (s : ClusterManager) : List String :=
  s._instance_info.map (fun p => p.2.resource_tag)

/-- The first store of `fresh_state` with a count of 0 regions for table 1. -/
def zero_count_state : ClusterManager :=
  set_instance_regions fresh_state "10.0.0.1:8110" [(1, [])] [(1, 0)]

/-- The number of registry entries whose resource tag is exactly `resource_tag`. -/
def instances_with_tag (s : ClusterManager) (resource_tag : String) : Nat :=
  (s._instance_info.filter (fun p => decide (p.2.resource_tag = resource_tag))).length

/-! ## Sample states -/

/-- A registry of two stores, the second one marked dead, with a placement index
for the first. -/
def sample_state : ClusterManager :=
  { _physical_info := [("room1", "logical1")]
    _logical_physical_map := [("logical1", ["room1"])]
    _instance_info :=
      [("10.0.0.1:8110", Instance.ctor ⟨"10.0.0.1:8110", 100, false, 0, "ssd", "room1"⟩ 7),
       ("10.0.0.2:8110",
        Instance.marked_dead (Instance.ctor ⟨"10.0.0.2:8110", 50, true, 3, "hdd", "room1"⟩ 9))]
    _last_rolling_instance := ""
    _instance_regions_map := [("10.0.0.1:8110", [(1, [4, 5])])]
    _instance_regions_count_map := [("10.0.0.1:8110", [(1, 2)])] }

/-- A heartbeat payload of the second store of `sample_state`, without the
optional `used_size`. -/
def sample_info : InstanceInfo := ⟨"10.0.0.2:8110", 80, false, 0, "ssd", "room2"⟩

/-- A payload of a store that `sample_state` does not know. -/
def unknown_info : InstanceInfo := ⟨"10.0.0.9:8110", 80, true, 1, "ssd", "room2"⟩

/-- Both stores of `sample_state` with counts: 2 and 5 regions of table 1, 1 region of
table 2. -/
def two_store_state : ClusterManager :=
  set_instance_regions sample_state "10.0.0.2:8110" [(1, [9]), (2, [10])] [(1, 5), (2, 1)]

/-! ## Lemmas on `UMap` -/

namespace UMap

variable {K V : Type} [DecidableEq K]

theorem find_modify_self (m : UMap K V) (k : K) (f : V → V) :
    find (modify m k f) k = (find m k).map f := by
  induction m with
  | nil => rfl
  | cons p rest ih =>
    obtain ⟨a, b⟩ := p
    by_cases h : a = k
    · simp [modify, find, h]
    · simp [modify, find, h, ih]

theorem find_modify_ne (m : UMap K V) (k k2 : K) (f : V → V) (hne : k2 ≠ k) :
    find (modify m k f) k2 = find m k2 := by
  induction m with
  | nil => rfl
  | cons p rest ih =>
    obtain ⟨a, b⟩ := p
    by_cases h : a = k
    · subst h
      have h2 : ¬ a = k2 := fun e => hne e.symm
      simp [modify, find, h2]
    · by_cases h2 : a = k2
      · subst h2
        simp [modify, find, h]
      · simp [modify, find, h, h2, ih]

theorem modify_modify (m : UMap K V) (k : K) (f g : V → V) :
    modify (modify m k f) k g = modify m k (fun x => g (f x)) := by
  induction m with
  | nil => rfl
  | cons p rest ih =>
    obtain ⟨a, b⟩ := p
    by_cases h : a = k
    · simp [modify, h]
    · simp [modify, h, ih]

theorem keys_modify (m : UMap K V) (k : K) (f : V → V) : keys (modify m k f) = keys m := by
  induction m with
  | nil => rfl
  | cons p rest ih =>
    obtain ⟨a, b⟩ := p
    by_cases h : a = k
    · simp [modify, keys, h]
    · simp only [modify, h, if_false, keys, List.map_cons] at ih ⊢
      rw [ih]

theorem find_eq_none_iff (m : UMap K V) (k : K) : find m k = none ↔ k ∉ keys m := by
  induction m with
  | nil => simp [find, keys]
  | cons p rest ih =>
    obtain ⟨a, b⟩ := p
    by_cases h : a = k
    · simp [find, keys, h]
    · have h2 : ¬ k = a := fun e => h e.symm
      simp only [find, h, if_false, ih, keys, List.map_cons, List.mem_cons, h2, false_or]

theorem subscript_eq_modify (m : UMap K V) (k : K) (dflt : V) (f : V → V)
    (h : find m k ≠ none) : subscript m k dflt f = modify m k f := by
  induction m with
  | nil => exact absurd rfl h
  | cons p rest ih =>
    obtain ⟨a, b⟩ := p
    by_cases hk : a = k
    · simp [subscript, modify, hk]
    · have h2 : find rest k ≠ none := by simpa [find, hk] using h
      simp [subscript, modify, hk, ih h2]

theorem modify_id (m : UMap K V) (k : K) : modify m k id = m := by
  induction m with
  | nil => rfl
  | cons p rest ih =>
    obtain ⟨a, b⟩ := p
    by_cases hk : a = k
    · simp [modify, hk]
    · simp [modify, hk, ih]

theorem find_subscript_self (m : UMap K V) (k : K) (dflt : V) (f : V → V) :
    find (subscript m k dflt f) k = some (f ((find m k).getD dflt)) := by
  induction m with
  | nil => simp [subscript, find]
  | cons p rest ih =>
    obtain ⟨a, b⟩ := p
    by_cases hk : a = k
    · simp [subscript, find, hk]
    · simp [subscript, find, hk, ih]

theorem find_subscript_ne (m : UMap K V) (k k2 : K) (dflt : V) (f : V → V) (hne : k2 ≠ k) :
    find (subscript m k dflt f) k2 = find m k2 := by
  induction m with
  | nil =>
    have h2 : ¬ k = k2 := fun e => hne e.symm
    simp [subscript, find, h2]
  | cons p rest ih =>
    obtain ⟨a, b⟩ := p
    by_cases h : a = k
    · subst h
      have h2 : ¬ a = k2 := fun e => hne e.symm
      simp [subscript, find, h2]
    · by_cases h2 : a = k2
      · subst h2
        simp [subscript, find, h]
      · simp [subscript, find, h, h2, ih]

theorem find_assign_self (m : UMap K V) (k : K) (v : V) : find (assign m k v) k = some v := by
  simp [assign, find_subscript_self]

theorem find_assign_ne (m : UMap K V) (k k2 : K) (v : V) (hne : k2 ≠ k) :
    find (assign m k v) k2 = find m k2 :=
  find_subscript_ne m k k2 v _ hne

theorem modify_fixed (m : UMap K V) (k : K) (f : V → V) (v : V)
    (h : find m k = some v) (hf : f v = v) : modify m k f = m := by
  induction m with
  | nil => rfl
  | cons p rest ih =>
    obtain ⟨a, b⟩ := p
    by_cases hk : a = k
    · have hb : b = v := by simpa [find, hk] using h
      simp [modify, hk, hb, hf]
    · have h2 : find rest k = some v := by simpa [find, hk] using h
      simp [modify, hk, ih h2]

theorem subscript_id (m : UMap K V) (k : K) (dflt : V) (h : find m k ≠ none) :
    subscript m k dflt id = m := by
  rw [subscript_eq_modify m k dflt id h, modify_id]

theorem read_found (m : UMap K V) (k : K) (dflt v : V) (h : find m k = some v) :
    read m k dflt = (v, m) := by
  have hne : find m k ≠ none := by simp [h]
  simp [read, subscript_id m k dflt hne, h]

theorem modify_absent (m : UMap K V) (k : K) (f : V → V) (h : find m k = none) :
    modify m k f = m := by
  induction m with
  | nil => rfl
  | cons p rest ih =>
    obtain ⟨a, b⟩ := p
    by_cases hk : a = k
    · simp [find, hk] at h
    · have h2 : find rest k = none := by simpa [find, hk] using h
      simp [modify, hk, ih h2]

theorem modify_comm (m : UMap K V) (k k2 : K) (f g : V → V) (hne : k ≠ k2) :
    modify (modify m k f) k2 g = modify (modify m k2 g) k f := by
  induction m with
  | nil => rfl
  | cons p rest ih =>
    obtain ⟨a, b⟩ := p
    by_cases hk : a = k
    · subst hk
      simp [modify, hne]
    · by_cases hk2 : a = k2
      · subst hk2
        simp [modify, hk]
      · simp [modify, hk, hk2, ih]

/-- Two maps that `modify k f` makes equal are made equal by `modify k g` too, when
`g` forgets at least what `f` forgets. -/
theorem modify_congr_rel (k : K) (f g : V → V) (hfg : ∀ x y, f x = f y → g x = g y) :
    ∀ m1 m2 : UMap K V, modify m1 k f = modify m2 k f → modify m1 k g = modify m2 k g := by
  intro m1
  induction m1 with
  | nil =>
    intro m2 h
    cases m2 with
    | nil => rfl
    | cons q r2 =>
      obtain ⟨a2, b2⟩ := q
      by_cases hk2 : a2 = k <;> simp [modify, hk2] at h
  | cons p r1 ih =>
    intro m2 h
    obtain ⟨a, b⟩ := p
    cases m2 with
    | nil => by_cases hk : a = k <;> simp [modify, hk] at h
    | cons q r2 =>
      obtain ⟨a2, b2⟩ := q
      by_cases hk : a = k
      · subst hk
        by_cases hk2 : a2 = a
        · subst hk2
          simp only [modify, if_true] at h ⊢
          rw [List.cons.injEq, Prod.mk.injEq] at h ⊢
          exact ⟨⟨rfl, hfg b b2 h.1.2⟩, h.2⟩
        · simp only [modify, if_true, hk2, if_false] at h
          rw [List.cons.injEq, Prod.mk.injEq] at h
          exact absurd h.1.1.symm hk2
      · by_cases hk2 : a2 = k
        · subst hk2
          simp only [modify, if_true, hk, if_false] at h
          rw [List.cons.injEq, Prod.mk.injEq] at h
          exact absurd h.1.1 hk
        · simp only [modify, hk, hk2, if_false] at h ⊢
          rw [List.cons.injEq] at h ⊢
          exact ⟨h.1, ih r2 h.2⟩

theorem subscript_comm (m : UMap K V) (k k2 : K) (d d2 : V) (f g : V → V) (hne : k ≠ k2)
    (h : find m k2 ≠ none) :
    subscript (subscript m k2 d2 g) k d f = subscript (subscript m k d f) k2 d2 g := by
  induction m with
  | nil => exact absurd rfl h
  | cons p rest ih =>
    obtain ⟨a, b⟩ := p
    by_cases hk : a = k
    · subst hk
      simp [subscript, hne]
    · by_cases hk2 : a = k2
      · subst hk2
        simp [subscript, hk]
      · have h2 : find rest k2 ≠ none := by simpa [find, hk2] using h
        simp [subscript, hk, hk2, ih h2]

theorem subscript_subscript (m : UMap K V) (k : K) (d d2 : V) (f g : V → V)
    (hd : g (f d) = g (f d2)) :
    subscript (subscript m k d f) k d2 g = subscript m k d2 (fun x => g (f x)) := by
  induction m with
  | nil => simp [subscript, hd]
  | cons p rest ih =>
    obtain ⟨a, b⟩ := p
    by_cases hk : a = k
    · simp [subscript, hk]
    · simp [subscript, hk, ih]

theorem assign_assign (m : UMap K V) (k : K) (v v2 : V) :
    assign (assign m k v2) k v = assign m k v := by
  unfold assign
  rw [subscript_subscript m k v2 v (fun _ => v2) (fun _ => v) rfl]

theorem assign_comm (m : UMap K V) (k k2 : K) (v v2 : V) (hne : k ≠ k2)
    (h : find m k2 ≠ none) :
    assign (assign m k2 v2) k v = assign (assign m k v) k2 v2 :=
  subscript_comm m k k2 v v2 _ _ hne h

theorem find_assign_ne_none (m : UMap K V) (k k2 : K) (v : V) (h : find m k2 ≠ none) :
    find (assign m k v) k2 ≠ none := by
  by_cases hk : k2 = k
  · rw [hk, find_assign_self]; simp
  · rw [find_assign_ne m k k2 v hk]; exact h

theorem mem_modify (m : UMap K V) (k : K) (f : V → V) (p : K × V) (hp : p ∈ modify m k f) :
    p ∈ m ∨ ∃ b, (p.1, b) ∈ m ∧ p.2 = f b := by
  induction m with
  | nil => simp [modify] at hp
  | cons q rest ih =>
    obtain ⟨a, b⟩ := q
    by_cases hk : a = k
    · simp only [modify, hk, if_true, List.mem_cons] at hp
      rcases hp with hp | hp
      · right
        exact ⟨b, by simp [hp, hk], by simp [hp]⟩
      · left
        exact List.mem_cons_of_mem _ hp
    · simp only [modify, hk, if_false, List.mem_cons] at hp
      rcases hp with hp | hp
      · left
        simp [hp]
      · rcases ih hp with h | ⟨b2, h1, h2⟩
        · left
          exact List.mem_cons_of_mem _ h
        · right
          exact ⟨b2, List.mem_cons_of_mem _ h1, h2⟩

omit [DecidableEq K] in
theorem mem_keys_of_mem (m : UMap K V) (p : K × V) (hp : p ∈ m) : p.1 ∈ keys m :=
  List.mem_map_of_mem Prod.fst hp

theorem mem_assign (m : UMap K V) (k : K) (v : V) (p : K × V) (hp : p ∈ assign m k v) :
    p = (k, v) ∨ p ∈ m := by
  induction m with
  | nil =>
    left
    simpa [assign, subscript] using hp
  | cons q rest ih =>
    obtain ⟨a, b⟩ := q
    by_cases hk : a = k
    · simp only [assign, subscript, hk, if_true, List.mem_cons] at hp
      rcases hp with hp | hp
      · exact Or.inl hp
      · exact Or.inr (List.mem_cons_of_mem _ hp)
    · simp only [assign, subscript, hk, if_false, List.mem_cons] at hp
      rcases hp with hp | hp
      · right
        rw [hp]
        exact List.mem_cons_self _ _
      · rcases ih hp with h | h
        · exact Or.inl h
        · exact Or.inr (List.mem_cons_of_mem _ h)

/-- In a map without repeated keys the assignment `m[k] = v` leaves no other entry
with the key `k`. -/
theorem mem_assign_of_wf (m : UMap K V) (k : K) (v : V) (p : K × V) (hw : WF m)
    (hp : p ∈ assign m k v) : p = (k, v) ∨ (p ∈ m ∧ p.1 ≠ k) := by
  induction m with
  | nil =>
    left
    simpa [assign, subscript] using hp
  | cons q rest ih =>
    obtain ⟨a, b⟩ := q
    have hw2 : a ∉ keys rest ∧ WF rest := by
      simpa [WF, keys] using hw
    by_cases hk : a = k
    · simp only [assign, subscript, hk, if_true, List.mem_cons] at hp
      rcases hp with hp | hp
      · exact Or.inl hp
      · right
        refine ⟨List.mem_cons_of_mem _ hp, ?_⟩
        intro he
        apply hw2.1
        rw [hk, ← he]
        exact mem_keys_of_mem rest p hp
    · simp only [assign, subscript, hk, if_false, List.mem_cons] at hp
      rcases hp with hp | hp
      · right
        rw [hp]
        exact ⟨List.mem_cons_self _ _, hk⟩
      · rcases ih hw2.2 hp with h | h
        · exact Or.inl h
        · exact Or.inr ⟨List.mem_cons_of_mem _ h.1, h.2⟩

theorem wf_assign (m : UMap K V) (k : K) (v : V) (hw : WF m) : WF (assign m k v) := by
  induction m with
  | nil => simp [WF, keys, assign, subscript]
  | cons q rest ih =>
    obtain ⟨a, b⟩ := q
    have hw2 : a ∉ keys rest ∧ WF rest := by
      simpa [WF, keys] using hw
    by_cases hk : a = k
    · simpa [assign, subscript, hk, WF, keys] using hw
    · have hnot : a ∉ keys (assign rest k v) := by
        intro hmem
        obtain ⟨p, hp, hpa⟩ := List.mem_map.mp hmem
        rcases mem_assign rest k v p hp with h | h
        · rw [h] at hpa
          exact hk hpa.symm
        · apply hw2.1
          rw [← hpa]
          exact mem_keys_of_mem rest p h
      have hrest : WF (assign rest k v) := ih hw2.2
      have hcons : assign ((a, b) :: rest) k v = (a, b) :: assign rest k v := by
        simp [assign, subscript, hk]
      rw [hcons]
      exact List.nodup_cons.mpr ⟨hnot, hrest⟩

end UMap

/-! ## The health transitions on one registered instance -/

/-- Past the guard, `update_instance_info` rewrites the record found. -/
theorem update_instance_info_found (s : ClusterManager) (instance_info : InstanceInfo) (now : Int)
    (x : Instance) (h : UMap.find s._instance_info instance_info.address = some x) :
    update_instance_info s instance_info now =
      (0, { s with
        _instance_info :=
          UMap.modify s._instance_info instance_info.address (Instance.refreshed instance_info now) }) := by
  simp only [update_instance_info, h, UMap.modify_modify]
  rfl

/-- Past the guard, `set_dead_for_instance` rewrites the record found. -/
theorem set_dead_for_instance_found (s : ClusterManager) (dead_instance : String)
    (x : Instance) (h : UMap.find s._instance_info dead_instance = some x) :
    set_dead_for_instance s dead_instance =
      (0, { s with
        _instance_info := UMap.modify s._instance_info dead_instance Instance.marked_dead }) := by
  simp only [set_dead_for_instance, h, UMap.modify_modify]
  rfl

theorem update_instance_info_not_found (s : ClusterManager) (instance_info : InstanceInfo)
    (now : Int) (h : UMap.find s._instance_info instance_info.address = none) :
    update_instance_info s instance_info now = (-1, s) := by
  simp [update_instance_info, h]

theorem set_dead_for_instance_not_found (s : ClusterManager) (dead_instance : String)
    (h : UMap.find s._instance_info dead_instance = none) :
    set_dead_for_instance s dead_instance = (-1, s) := by
  simp [set_dead_for_instance, h]

/-- C1: for every state and every address present in the instance registry,
`set_dead_for_instance(address)` returns 0 and afterwards that instance has status
DEAD and last-heartbeat timestamp exactly 0. -/
theorem set_dead_for_instance_marks_dead (s : ClusterManager) (address : String)
    (h : Registered s address) :
    (set_dead_for_instance s address).1 = 0 ∧
      ∃ x, UMap.find (set_dead_for_instance s address).2._instance_info address = some x ∧
        x.instance_status.state = Status.DEAD ∧ x.instance_status.timestamp = 0 := by
  obtain ⟨x, hx⟩ := Option.ne_none_iff_exists'.mp h
  rw [set_dead_for_instance_found s address x hx]
  refine ⟨rfl, Instance.marked_dead x, ?_, rfl, rfl⟩
  simp only [UMap.find_modify_self, hx, Option.map_some']

theorem set_dead_for_instance_marks_dead_witness :
    Registered sample_state "10.0.0.1:8110" ∧
      (set_dead_for_instance sample_state "10.0.0.1:8110").1 = 0 ∧
      ∃ x, UMap.find (set_dead_for_instance sample_state "10.0.0.1:8110").2._instance_info
          "10.0.0.1:8110" = some x ∧
        x.instance_status.state = Status.DEAD ∧ x.instance_status.timestamp = 0 :=
  ⟨by decide, set_dead_for_instance_marks_dead sample_state "10.0.0.1:8110" (by decide)⟩

/-- C2: for every state, clock reading `now` and `InstanceInfo` whose address is
in the instance registry (whatever the status of the instance), `update_instance_info`
returns 0 and afterwards the capacity, used size and resource tag of the instance are
the request's `capacity()`, `used_size()` and `resource_tag()`, its status is NORMAL
and its timestamp is `now`. -/
theorem update_instance_info_refreshes (s : ClusterManager) (instance_info : InstanceInfo)
    (now : Int) (h : Registered s instance_info.address) :
    (update_instance_info s instance_info now).1 = 0 ∧
      ∃ x, UMap.find (update_instance_info s instance_info now).2._instance_info
          instance_info.address = some x ∧
        x.capacity = instance_info.capacity ∧ x.used_size = instance_info.used_size ∧
        x.resource_tag = instance_info.resource_tag ∧
        x.instance_status.state = Status.NORMAL ∧ x.instance_status.timestamp = now := by
  obtain ⟨x, hx⟩ := Option.ne_none_iff_exists'.mp h
  rw [update_instance_info_found s instance_info now x hx]
  refine ⟨rfl, Instance.refreshed instance_info now x, ?_, rfl, rfl, rfl, rfl, rfl⟩
  simp only [UMap.find_modify_self, hx, Option.map_some']

theorem update_instance_info_refreshes_witness :
    Registered sample_state sample_info.address ∧
      (UMap.find sample_state._instance_info sample_info.address).map
        (fun x => x.instance_status.state) = some Status.DEAD ∧
      (update_instance_info sample_state sample_info 1234).1 = 0 ∧
      ∃ x, UMap.find (update_instance_info sample_state sample_info 1234).2._instance_info
          sample_info.address = some x ∧
        x.capacity = sample_info.capacity ∧ x.used_size = sample_info.used_size ∧
        x.resource_tag = sample_info.resource_tag ∧
        x.instance_status.state = Status.NORMAL ∧ x.instance_status.timestamp = 1234 :=
  ⟨by decide, by decide, update_instance_info_refreshes sample_state sample_info 1234 (by decide)⟩

/-- C3: `update_instance_info` and `set_dead_for_instance` each return -1 exactly
when the address is not in the instance registry and 0 otherwise; when they return
-1 the whole state is unchanged, and the unknown address is still not registered. -/
theorem unknown_address_rejected (s : ClusterManager) (instance_info : InstanceInfo) (now : Int)
    (dead_instance : String) :
    ((update_instance_info s instance_info now).1 = -1 ↔ ¬ Registered s instance_info.address) ∧
    ((update_instance_info s instance_info now).1 = 0 ↔ Registered s instance_info.address) ∧
    ((set_dead_for_instance s dead_instance).1 = -1 ↔ ¬ Registered s dead_instance) ∧
    ((set_dead_for_instance s dead_instance).1 = 0 ↔ Registered s dead_instance) ∧
    ((update_instance_info s instance_info now).1 = -1 →
      (update_instance_info s instance_info now).2 = s ∧
        ¬ Registered (update_instance_info s instance_info now).2 instance_info.address) ∧
    ((set_dead_for_instance s dead_instance).1 = -1 →
      (set_dead_for_instance s dead_instance).2 = s ∧
        ¬ Registered (set_dead_for_instance s dead_instance).2 dead_instance) := by
  have hu : (update_instance_info s instance_info now).1 = -1 ↔
      ¬ Registered s instance_info.address := by
    unfold Registered
    cases hx : UMap.find s._instance_info instance_info.address with
    | none => simp [update_instance_info_not_found s instance_info now hx]
    | some x => simp [update_instance_info_found s instance_info now x hx]
  have hd : (set_dead_for_instance s dead_instance).1 = -1 ↔ ¬ Registered s dead_instance := by
    unfold Registered
    cases hx : UMap.find s._instance_info dead_instance with
    | none => simp [set_dead_for_instance_not_found s dead_instance hx]
    | some x => simp [set_dead_for_instance_found s dead_instance x hx]
  refine ⟨hu, ?_, hd, ?_, ?_, ?_⟩
  · unfold Registered
    cases hx : UMap.find s._instance_info instance_info.address with
    | none => simp [update_instance_info_not_found s instance_info now hx]
    | some x => simp [update_instance_info_found s instance_info now x hx]
  · unfold Registered
    cases hx : UMap.find s._instance_info dead_instance with
    | none => simp [set_dead_for_instance_not_found s dead_instance hx]
    | some x => simp [set_dead_for_instance_found s dead_instance x hx]
  · intro h
    have hn := hu.mp h
    have hx : UMap.find s._instance_info instance_info.address = none := by
      simpa [Registered] using hn
    rw [update_instance_info_not_found s instance_info now hx]
    exact ⟨rfl, hn⟩
  · intro h
    have hn := hd.mp h
    have hx : UMap.find s._instance_info dead_instance = none := by
      simpa [Registered] using hn
    rw [set_dead_for_instance_not_found s dead_instance hx]
    exact ⟨rfl, hn⟩

theorem unknown_address_rejected_witness :
    (update_instance_info sample_state unknown_info 55).1 = -1 ∧
      (update_instance_info sample_state unknown_info 55).2 = sample_state ∧
      ¬ Registered (update_instance_info sample_state unknown_info 55).2 unknown_info.address ∧
      (set_dead_for_instance sample_state "10.0.0.9:8110").1 = -1 ∧
      (set_dead_for_instance sample_state "10.0.0.9:8110").2 = sample_state :=
  have h := unknown_address_rejected sample_state unknown_info 55 "10.0.0.9:8110"
  have hu : (update_instance_info sample_state unknown_info 55).1 = -1 := h.1.mpr (by decide)
  have hd : (set_dead_for_instance sample_state "10.0.0.9:8110").1 = -1 :=
    h.2.2.1.mpr (by decide)
  ⟨hu, (h.2.2.2.2.1 hu).1, (h.2.2.2.2.1 hu).2, hd, (h.2.2.2.2.2 hd).1⟩

/-! ## The placement index -/

/-- The query `get_peer_count(instance, table_id)` returns the count of the index
and leaves the state as it was. -/
theorem get_peer_count_eq (s : ClusterManager) (inst : String) (table_id : Int) :
    get_peer_count s inst table_id =
      (peer_count_of s._instance_regions_count_map inst table_id, s) := by
  unfold get_peer_count peer_count_of
  cases h : UMap.find s._instance_regions_count_map inst with
  | none => simp
  | some t =>
    rw [UMap.read_found _ inst [] t h]
    cases h2 : UMap.find t table_id with
    | none => simp [h2]
    | some v =>
      have hfix : UMap.subscript s._instance_regions_count_map inst []
          (fun t => UMap.subscript t table_id 0 id) = s._instance_regions_count_map := by
        rw [UMap.subscript_eq_modify _ _ _ _ (by simp [h])]
        exact UMap.modify_fixed _ _ _ t h (UMap.subscript_id t table_id 0 (by simp [h2]))
      simp [hfix, h, h2]

/-! ## `reset_instance_status` -/

theorem reset_loop_keys (clock : Nat → Int) (info : UMap String Instance) :
    ∀ (i : Nat) (regions : UMap String TableRegionMap) (counts : UMap String TableRegionCountMap),
      UMap.keys (reset_instance_status_loop clock i info regions counts).1 = UMap.keys info := by
  induction info with
  | nil => intro i regions counts; rfl
  | cons p rest ih =>
    intro i regions counts
    simp only [reset_instance_status_loop, UMap.keys, List.map_cons] at ih ⊢
    rw [ih]

theorem reset_loop_info (clock : Nat → Int) (info : UMap String Instance) :
    ∀ (i : Nat) (regions : UMap String TableRegionMap) (counts : UMap String TableRegionCountMap),
      ∀ p ∈ (reset_instance_status_loop clock i info regions counts).1,
        p.2.instance_status.state = Status.NORMAL ∧
          ∃ j, i ≤ j ∧ j < i + info.length ∧ p.2.instance_status.timestamp = clock j := by
  induction info with
  | nil => intro i regions counts p hp; simp [reset_instance_status_loop] at hp
  | cons q rest ih =>
    intro i regions counts p hp
    simp only [reset_instance_status_loop, List.mem_cons] at hp
    rcases hp with hp | hp
    · subst hp
      exact ⟨rfl, i, le_refl i, by simp, rfl⟩
    · obtain ⟨h1, j, hj1, hj2, hj3⟩ := ih (i + 1) _ _ p hp
      refine ⟨h1, j, by omega, ?_, hj3⟩
      simp only [List.length_cons]
      omega

theorem reset_loop_counts_keep (clock : Nat → Int) (info : UMap String Instance) (k : String) :
    ∀ (i : Nat) (regions : UMap String TableRegionMap) (counts : UMap String TableRegionCountMap),
      UMap.find counts k = some [] →
        UMap.find (reset_instance_status_loop clock i info regions counts).2.2 k = some [] := by
  induction info with
  | nil => intro i regions counts h; exact h
  | cons q rest ih =>
    intro i regions counts h
    simp only [reset_instance_status_loop]
    apply ih
    by_cases hk : k = q.1
    · rw [hk, UMap.find_assign_self]
    · rw [UMap.find_assign_ne _ _ _ _ hk]; exact h

theorem reset_loop_regions_keep (clock : Nat → Int) (info : UMap String Instance) (k : String) :
    ∀ (i : Nat) (regions : UMap String TableRegionMap) (counts : UMap String TableRegionCountMap),
      UMap.find regions k = some [] →
        UMap.find (reset_instance_status_loop clock i info regions counts).2.1 k = some [] := by
  induction info with
  | nil => intro i regions counts h; exact h
  | cons q rest ih =>
    intro i regions counts h
    simp only [reset_instance_status_loop]
    apply ih
    by_cases hk : k = q.1
    · rw [hk, UMap.find_assign_self]
    · rw [UMap.find_assign_ne _ _ _ _ hk]; exact h

theorem reset_loop_cleared (clock : Nat → Int) (info : UMap String Instance) (k : String) :
    ∀ (i : Nat) (regions : UMap String TableRegionMap) (counts : UMap String TableRegionCountMap),
      k ∈ UMap.keys info →
        UMap.find (reset_instance_status_loop clock i info regions counts).2.1 k = some [] ∧
          UMap.find (reset_instance_status_loop clock i info regions counts).2.2 k = some [] := by
  induction info with
  | nil => intro i regions counts h; simp [UMap.keys] at h
  | cons q rest ih =>
    intro i regions counts h
    simp only [UMap.keys, List.map_cons, List.mem_cons] at h
    simp only [reset_instance_status_loop]
    rcases h with h | h
    · subst h
      exact ⟨reset_loop_regions_keep clock rest q.1 _ _ _ (UMap.find_assign_self _ _ _),
        reset_loop_counts_keep clock rest q.1 _ _ _ (UMap.find_assign_self _ _ _)⟩
    · exact ih _ _ _ h

theorem registered_iff_mem_keys (s : ClusterManager) (address : String) :
    Registered s address ↔ address ∈ UMap.keys s._instance_info := by
  unfold Registered
  rw [Ne, UMap.find_eq_none_iff, not_not]

/-- C4: after `reset_instance_status` every instance in the registry has status
NORMAL and a timestamp that is one of the clock readings of the call; the registered
addresses are the same as before, and for each of them the placement index holds an
empty region map and an empty count map, so `get_peer_count(address, table_id)` is 0
for every table. -/
theorem reset_instance_status_resets (clock : Nat → Int) (s : ClusterManager) :
    (∀ p ∈ (reset_instance_status clock s)._instance_info,
      p.2.instance_status.state = Status.NORMAL ∧
        ∃ j, j < s._instance_info.length ∧ p.2.instance_status.timestamp = clock j) ∧
    (∀ address, Registered (reset_instance_status clock s) address ↔ Registered s address) ∧
    (∀ address table_id, Registered (reset_instance_status clock s) address →
      UMap.find (reset_instance_status clock s)._instance_regions_map address = some [] ∧
      UMap.find (reset_instance_status clock s)._instance_regions_count_map address = some [] ∧
      (get_peer_count (reset_instance_status clock s) address table_id).1 = 0) := by
  have hreg : ∀ address, Registered (reset_instance_status clock s) address ↔
      Registered s address := by
    intro address
    rw [registered_iff_mem_keys, registered_iff_mem_keys]
    simp only [reset_instance_status, reset_loop_keys]
  refine ⟨?_, hreg, ?_⟩
  · intro p hp
    obtain ⟨h1, j, _, hj2, hj3⟩ := reset_loop_info clock s._instance_info 0 _ _ p hp
    exact ⟨h1, j, by omega, hj3⟩
  · intro address table_id h
    have hk := (registered_iff_mem_keys s address).mp ((hreg address).mp h)
    obtain ⟨hr, hc⟩ := reset_loop_cleared clock s._instance_info address 0
      s._instance_regions_map s._instance_regions_count_map hk
    have hc2 : UMap.find (reset_instance_status clock s)._instance_regions_count_map address
        = some [] := hc
    refine ⟨hr, hc2, ?_⟩
    rw [get_peer_count_eq]
    simp [peer_count_of, hc2, UMap.find]

theorem reset_instance_status_resets_witness :
    Registered (reset_instance_status (fun i => 1000 + i) sample_state) "10.0.0.1:8110" ∧
      (get_peer_count sample_state "10.0.0.1:8110" 1).1 = 2 ∧
      (get_peer_count (reset_instance_status (fun i => 1000 + i) sample_state)
        "10.0.0.1:8110" 1).1 = 0 :=
  ⟨by decide, by decide,
    (((reset_instance_status_resets (fun i => 1000 + i) sample_state).2.2 "10.0.0.1:8110" 1)
      (by decide)).2.2⟩

/-! ## `set_instance_regions` -/

/-- C5: `set_instance_regions` overwrites: after `set_instance_regions(i, regions, c)`
the query `get_peer_count(i, t)` is `c[t]` when `t` is a key of `c` and 0 when it is
not, whatever count `i` had for `t` before, and `get_peer_count(j, t)` is unchanged
for every other address `j`; in every state `get_peer_count(a, t)` is 0 when the
address or the table has no entry. -/
theorem set_instance_regions_overwrites (s : ClusterManager) (i : String)
    (regions : TableRegionMap) (c : TableRegionCountMap) (t : Int) (j a : String) :
    (∀ v, UMap.find c t = some v →
      (get_peer_count (set_instance_regions s i regions c) i t).1 = v) ∧
    (UMap.find c t = none → (get_peer_count (set_instance_regions s i regions c) i t).1 = 0) ∧
    (j ≠ i → (get_peer_count (set_instance_regions s i regions c) j t).1 =
      (get_peer_count s j t).1) ∧
    (UMap.find s._instance_regions_count_map a = none → (get_peer_count s a t).1 = 0) ∧
    (∀ m, UMap.find s._instance_regions_count_map a = some m → UMap.find m t = none →
      (get_peer_count s a t).1 = 0) := by
  have hi : (get_peer_count (set_instance_regions s i regions c) i t).1 =
      (UMap.find c t).getD 0 := by
    rw [get_peer_count_eq]
    simp [peer_count_of, set_instance_regions, UMap.find_assign_self]
  refine ⟨?_, ?_, ?_, ?_, ?_⟩
  · intro v hv
    rw [hi, hv]; rfl
  · intro hn
    rw [hi, hn]; rfl
  · intro hne
    rw [get_peer_count_eq, get_peer_count_eq]
    simp [peer_count_of, set_instance_regions, UMap.find_assign_ne _ _ _ _ hne]
  · intro hn
    rw [get_peer_count_eq]
    simp [peer_count_of, hn]
  · intro m hm hn
    rw [get_peer_count_eq]
    simp [peer_count_of, hm, hn]

theorem set_instance_regions_overwrites_witness :
    (get_peer_count sample_state "10.0.0.1:8110" 1).1 = 2 ∧
      (get_peer_count (set_instance_regions sample_state "10.0.0.1:8110" [(2, [8])] [(2, 7)])
        "10.0.0.1:8110" 2).1 = 7 ∧
      (get_peer_count (set_instance_regions sample_state "10.0.0.1:8110" [(2, [8])] [(2, 7)])
        "10.0.0.1:8110" 1).1 = 0 ∧
      (get_peer_count (set_instance_regions sample_state "10.0.0.2:8110" [(1, [8])] [(1, 7)])
        "10.0.0.1:8110" 1).1 = (get_peer_count sample_state "10.0.0.1:8110" 1).1 ∧
      (get_peer_count sample_state "10.0.0.2:8110" 1).1 = 0 ∧
      (get_peer_count sample_state "10.0.0.1:8110" 3).1 = 0 :=
  ⟨by decide,
    (set_instance_regions_overwrites sample_state "10.0.0.1:8110" [(2, [8])] [(2, 7)] 2
      "10.0.0.2:8110" "10.0.0.2:8110").1 7 (by decide),
    (set_instance_regions_overwrites sample_state "10.0.0.1:8110" [(2, [8])] [(2, 7)] 1
      "10.0.0.2:8110" "10.0.0.2:8110").2.1 (by decide),
    (set_instance_regions_overwrites sample_state "10.0.0.2:8110" [(1, [8])] [(1, 7)] 1
      "10.0.0.1:8110" "10.0.0.2:8110").2.2.1 (by decide),
    (set_instance_regions_overwrites sample_state "10.0.0.2:8110" [(1, [8])] [(1, 7)] 1
      "10.0.0.1:8110" "10.0.0.2:8110").2.2.2.1 (by decide),
    (set_instance_regions_overwrites sample_state "10.0.0.2:8110" [(1, [8])] [(1, 7)] 3
      "10.0.0.1:8110" "10.0.0.1:8110").2.2.2.2 [(1, 2)] (by decide) (by decide)⟩

/-! ## The constructor of `Instance` -/

/-- C7: the `Instance` built from an `InstanceInfo` at clock reading `now` copies
address, capacity, resource tag and physical room from the request, has status NORMAL
and timestamp `now`, and its used size is the request's `used_size()` when the request
carries the field and the request's capacity when it does not. -/
theorem instance_ctor_copies (instance_info : InstanceInfo) (now : Int) :
    (Instance.ctor instance_info now).address = instance_info.address ∧
    (Instance.ctor instance_info now).capacity = instance_info.capacity ∧
    (Instance.ctor instance_info now).resource_tag = instance_info.resource_tag ∧
    (Instance.ctor instance_info now).physical_room = instance_info.physical_room ∧
    (Instance.ctor instance_info now).instance_status.state = Status.NORMAL ∧
    (Instance.ctor instance_info now).instance_status.timestamp = now ∧
    (instance_info.has_used_size = true →
      (Instance.ctor instance_info now).used_size = instance_info.used_size) ∧
    (instance_info.has_used_size = false →
      (Instance.ctor instance_info now).used_size = instance_info.capacity) := by
  cases h : instance_info.has_used_size <;> simp [Instance.ctor, h]

theorem instance_ctor_copies_witness :
    (Instance.ctor unknown_info 42).used_size = 1 ∧ (Instance.ctor sample_info 42).used_size = 80 :=
  ⟨(instance_ctor_copies unknown_info 42).2.2.2.2.2.2.1 (by decide),
    (instance_ctor_copies sample_info 42).2.2.2.2.2.2.2 (by decide)⟩

/-! ## Snapshot keys -/

theorem string_append_cancel_left (p a b : String) (h : p ++ a = p ++ b) : a = b := by
  have hd : (p ++ a).data = (p ++ b).data := by rw [h]
  rw [String.data_append, String.data_append] at hd
  exact String.ext (List.append_cancel_left hd)

theorem strip_leading_append (p a : String) : strip_leading p (p ++ a) = a := by
  apply String.ext
  simp [strip_leading, String.data_append]

/-- C8: `construct_instance_key(a)` is the cluster prefix, then the instance marker,
then `a`, and `construct_physical_key(l)` is the cluster prefix, then the physical
marker, then `l`; each builder is injective, and stripping the fixed prefix from a
built key gives the name back. -/
theorem snapshot_key_layout (ms : MetaServer) (a b : String) :
    construct_instance_key ms a = ms.CLUSTER_IDENTIFY ++ ms.INSTANCE_CLUSTER_IDENTIFY ++ a ∧
    construct_physical_key ms a = ms.CLUSTER_IDENTIFY ++ ms.PHYSICAL_CLUSTER_IDENTIFY ++ a ∧
    (construct_instance_key ms a = construct_instance_key ms b → a = b) ∧
    (construct_physical_key ms a = construct_physical_key ms b → a = b) ∧
    strip_leading (ms.CLUSTER_IDENTIFY ++ ms.INSTANCE_CLUSTER_IDENTIFY)
      (construct_instance_key ms a) = a ∧
    strip_leading (ms.CLUSTER_IDENTIFY ++ ms.PHYSICAL_CLUSTER_IDENTIFY)
      (construct_physical_key ms a) = a :=
  ⟨rfl, rfl, string_append_cancel_left _ a b, string_append_cancel_left _ a b,
    strip_leading_append _ a, strip_leading_append _ a⟩

theorem snapshot_key_layout_witness :
    construct_instance_key sample_meta_server "10.0.0.1:8110" = "\x01\x0310.0.0.1:8110" ∧
      construct_physical_key sample_meta_server "logical1" = "\x01\x02logical1" ∧
      strip_leading "\x01\x03" (construct_instance_key sample_meta_server "10.0.0.1:8110") =
        "10.0.0.1:8110" :=
  ⟨by decide, by decide,
    (snapshot_key_layout sample_meta_server "10.0.0.1:8110" "10.0.0.2:8110").2.2.2.2.1⟩

/-! ## Replay of applied entries -/

section Absorb

variable {α E : Type} (act : α → E → α) (P : α → E → Prop)

/-- Replaying a list of overwriting actions a second time changes nothing: `hid` says
an action is idempotent, `hC` that an action keeps two states it identifies
identified after any other action, `hP` and `hself` that the side condition `P` of an
action is kept by every action and established by the action itself. -/
theorem foldl_replay_absorb
    (hid : ∀ g x, act (act x g) g = act x g)
    (hC : ∀ g h x y, P x h → P y h → act x g = act y g → act (act x h) g = act (act y h) g)
    (hP : ∀ e h x, P x e → P (act x h) e)
    (hself : ∀ e x, P (act x e) e) :
    ∀ (l : List E) (x : α), List.foldl act (List.foldl act x l) l = List.foldl act x l := by
  have mono : ∀ (l : List E) (e : E) (x : α), P x e → P (List.foldl act x l) e := by
    intro l
    induction l with
    | nil => intro e x h; exact h
    | cons h t ih => intro e x hx; exact ih e _ (hP e h x hx)
  have pres : ∀ (l : List E) (x : α), ∀ e ∈ l, P (List.foldl act x l) e := by
    intro l
    induction l with
    | nil => intro x e he; simp at he
    | cons h t ih =>
      intro x e he
      rcases List.mem_cons.mp he with he | he
      · subst he
        exact mono t e _ (hself e x)
      · exact ih _ e he
  have keep : ∀ (l : List E) (g : E) (x y : α), (∀ h ∈ l, P x h) → (∀ h ∈ l, P y h) →
      act x g = act y g → act (List.foldl act x l) g = act (List.foldl act y l) g := by
    intro l
    induction l with
    | nil => intro g x y _ _ h; exact h
    | cons h t ih =>
      intro g x y hx hy hxy
      simp only [List.foldl_cons]
      apply ih
      · intro e he
        exact hP e h x (hx e (List.mem_cons_of_mem _ he))
      · intro e he
        exact hP e h y (hy e (List.mem_cons_of_mem _ he))
      · exact hC g h x y (hx h (List.mem_cons_self _ _)) (hy h (List.mem_cons_self _ _)) hxy
  intro l
  induction l using List.reverseRecOn with
  | nil => intro x; rfl
  | append_singleton t g ih =>
    intro x
    simp only [List.foldl_append, List.foldl_cons, List.foldl_nil]
    have h1 : act (List.foldl act (act (List.foldl act x t) g) t) g =
        act (List.foldl act (List.foldl act x t) t) g := by
      apply keep t g
      · intro e he
        exact hP e g _ (pres t x e he)
      · exact pres t x
      · exact hid g _
    rw [h1, ih]

end Absorb

theorem onInstance_idem (g : LogEntry) (x : Instance) :
    g.onInstance (g.onInstance x) = g.onInstance x := by
  cases g <;> rfl

theorem onInstance_absorb (g h : LogEntry) (x y : Instance)
    (hxy : g.onInstance x = g.onInstance y) :
    g.onInstance (h.onInstance x) = g.onInstance (h.onInstance y) := by
  cases g <;> cases h <;>
    simp only [LogEntry.onInstance, Instance.refreshed, Instance.marked_dead, id,
      Instance.mk.injEq, true_and, and_true] at hxy ⊢ <;>
    first
      | exact hxy
      | exact ⟨hxy.1, hxy.2⟩
      | exact ⟨hxy.1, hxy.2.2.2.2⟩
      | exact ⟨hxy.1, hxy.2.1, hxy.2.2.1, hxy.2.2.2.1, hxy.2.2.2.2⟩
      | (subst hxy; simp)

theorem onInfo_idem (g : LogEntry) (m : UMap String Instance) :
    LogEntry.onInfo (LogEntry.onInfo m g) g = LogEntry.onInfo m g := by
  unfold LogEntry.onInfo
  rw [UMap.modify_modify]
  congr 1
  funext x
  exact onInstance_idem g x

theorem onInfo_absorb (g h : LogEntry) (m1 m2 : UMap String Instance)
    (hm : LogEntry.onInfo m1 g = LogEntry.onInfo m2 g) :
    LogEntry.onInfo (LogEntry.onInfo m1 h) g = LogEntry.onInfo (LogEntry.onInfo m2 h) g := by
  unfold LogEntry.onInfo at hm ⊢
  by_cases hk : h.key = g.key
  · rw [hk, UMap.modify_modify, UMap.modify_modify]
    exact UMap.modify_congr_rel g.key g.onInstance _ (onInstance_absorb g h) m1 m2 hm
  · rw [UMap.modify_comm m1 _ _ _ _ hk, UMap.modify_comm m2 _ _ _ _ hk, hm]

theorem onRegions_idem (g : LogEntry) (m : UMap String TableRegionMap) :
    LogEntry.onRegions (LogEntry.onRegions m g) g = LogEntry.onRegions m g := by
  cases g <;> simp [LogEntry.onRegions, UMap.assign_assign]

theorem onCounts_idem (g : LogEntry) (m : UMap String TableRegionCountMap) :
    LogEntry.onCounts (LogEntry.onCounts m g) g = LogEntry.onCounts m g := by
  cases g <;> simp [LogEntry.onCounts, UMap.assign_assign]

theorem onRegions_absorb (g h : LogEntry) (m1 m2 : UMap String TableRegionMap)
    (h1 : LogEntry.PresentIn m1 h) (h2 : LogEntry.PresentIn m2 h)
    (hm : LogEntry.onRegions m1 g = LogEntry.onRegions m2 g) :
    LogEntry.onRegions (LogEntry.onRegions m1 h) g =
      LogEntry.onRegions (LogEntry.onRegions m2 h) g := by
  cases h with
  | update_instance_info _ _ => exact hm
  | set_dead_for_instance _ => exact hm
  | set_instance_regions b rb cb =>
    cases g with
    | update_instance_info _ _ =>
      simp only [LogEntry.onRegions] at hm ⊢
      rw [hm]
    | set_dead_for_instance _ =>
      simp only [LogEntry.onRegions] at hm ⊢
      rw [hm]
    | set_instance_regions a ra ca =>
      simp only [LogEntry.onRegions, LogEntry.PresentIn] at hm h1 h2 ⊢
      by_cases hab : a = b
      · subst hab
        rw [UMap.assign_assign, UMap.assign_assign, hm]
      · rw [UMap.assign_comm m1 a b ra rb hab h1, UMap.assign_comm m2 a b ra rb hab h2, hm]

theorem onCounts_absorb (g h : LogEntry) (m1 m2 : UMap String TableRegionCountMap)
    (h1 : LogEntry.PresentIn m1 h) (h2 : LogEntry.PresentIn m2 h)
    (hm : LogEntry.onCounts m1 g = LogEntry.onCounts m2 g) :
    LogEntry.onCounts (LogEntry.onCounts m1 h) g =
      LogEntry.onCounts (LogEntry.onCounts m2 h) g := by
  cases h with
  | update_instance_info _ _ => exact hm
  | set_dead_for_instance _ => exact hm
  | set_instance_regions b rb cb =>
    cases g with
    | update_instance_info _ _ =>
      simp only [LogEntry.onCounts] at hm ⊢
      rw [hm]
    | set_dead_for_instance _ =>
      simp only [LogEntry.onCounts] at hm ⊢
      rw [hm]
    | set_instance_regions a ra ca =>
      simp only [LogEntry.onCounts, LogEntry.PresentIn] at hm h1 h2 ⊢
      by_cases hab : a = b
      · subst hab
        rw [UMap.assign_assign, UMap.assign_assign, hm]
      · rw [UMap.assign_comm m1 a b ca cb hab h1, UMap.assign_comm m2 a b ca cb hab h2, hm]

theorem presentIn_onRegions (e h : LogEntry) (m : UMap String TableRegionMap)
    (hp : LogEntry.PresentIn m e) : LogEntry.PresentIn (LogEntry.onRegions m h) e := by
  cases e with
  | update_instance_info _ _ => trivial
  | set_dead_for_instance _ => trivial
  | set_instance_regions a ra ca =>
    cases h with
    | update_instance_info _ _ => exact hp
    | set_dead_for_instance _ => exact hp
    | set_instance_regions b rb cb => exact UMap.find_assign_ne_none m b a rb hp

theorem presentIn_onCounts (e h : LogEntry) (m : UMap String TableRegionCountMap)
    (hp : LogEntry.PresentIn m e) : LogEntry.PresentIn (LogEntry.onCounts m h) e := by
  cases e with
  | update_instance_info _ _ => trivial
  | set_dead_for_instance _ => trivial
  | set_instance_regions a ra ca =>
    cases h with
    | update_instance_info _ _ => exact hp
    | set_dead_for_instance _ => exact hp
    | set_instance_regions b rb cb => exact UMap.find_assign_ne_none m b a cb hp

theorem presentIn_self_onRegions (e : LogEntry) (m : UMap String TableRegionMap) :
    LogEntry.PresentIn (LogEntry.onRegions m e) e := by
  cases e with
  | update_instance_info _ _ => trivial
  | set_dead_for_instance _ => trivial
  | set_instance_regions a ra ca =>
    simp [LogEntry.PresentIn, LogEntry.onRegions, UMap.find_assign_self]

theorem presentIn_self_onCounts (e : LogEntry) (m : UMap String TableRegionCountMap) :
    LogEntry.PresentIn (LogEntry.onCounts m e) e := by
  cases e with
  | update_instance_info _ _ => trivial
  | set_dead_for_instance _ => trivial
  | set_instance_regions a ra ca =>
    simp [LogEntry.PresentIn, LogEntry.onCounts, UMap.find_assign_self]

/-- The state after one entry, member by member. -/
theorem apply_state (e : LogEntry) (s : ClusterManager) :
    (e.apply s).2 =
      { _physical_info := s._physical_info
        _logical_physical_map := s._logical_physical_map
        _instance_info := LogEntry.onInfo s._instance_info e
        _last_rolling_instance := s._last_rolling_instance
        _instance_regions_map := LogEntry.onRegions s._instance_regions_map e
        _instance_regions_count_map := LogEntry.onCounts s._instance_regions_count_map e } := by
  cases e with
  | update_instance_info instance_info now =>
    simp only [LogEntry.apply, LogEntry.onInfo, LogEntry.onRegions, LogEntry.onCounts,
      LogEntry.key, LogEntry.onInstance]
    cases hx : UMap.find s._instance_info instance_info.address with
    | none =>
      rw [update_instance_info_not_found s instance_info now hx, UMap.modify_absent _ _ _ hx]
    | some x => rw [update_instance_info_found s instance_info now x hx]
  | set_dead_for_instance dead_instance =>
    simp only [LogEntry.apply, LogEntry.onInfo, LogEntry.onRegions, LogEntry.onCounts,
      LogEntry.key, LogEntry.onInstance]
    cases hx : UMap.find s._instance_info dead_instance with
    | none =>
      rw [set_dead_for_instance_not_found s dead_instance hx, UMap.modify_absent _ _ _ hx]
    | some x => rw [set_dead_for_instance_found s dead_instance x hx]
  | set_instance_regions inst instance_regions instance_regions_count =>
    simp only [LogEntry.apply, LogEntry.onInfo, LogEntry.onRegions, LogEntry.onCounts,
      LogEntry.key, LogEntry.onInstance, UMap.modify_id, set_instance_regions]

/-- The state after a replay, member by member. -/
theorem replay_state (l : List LogEntry) :
    ∀ s : ClusterManager, (replay l s).2 =
      { _physical_info := s._physical_info
        _logical_physical_map := s._logical_physical_map
        _instance_info := List.foldl LogEntry.onInfo s._instance_info l
        _last_rolling_instance := s._last_rolling_instance
        _instance_regions_map := List.foldl LogEntry.onRegions s._instance_regions_map l
        _instance_regions_count_map :=
          List.foldl LogEntry.onCounts s._instance_regions_count_map l } := by
  induction l with
  | nil => intro s; rfl
  | cons e t ih =>
    intro s
    simp only [replay, List.foldl_cons]
    rw [ih, apply_state]

/-- The return code of an entry depends on the keys of the registry only. -/
theorem apply_code_congr (e : LogEntry) (s1 s2 : ClusterManager)
    (h : UMap.keys s1._instance_info = UMap.keys s2._instance_info) :
    (e.apply s1).1 = (e.apply s2).1 := by
  have hfind : ∀ a, UMap.find s1._instance_info a = none ↔ UMap.find s2._instance_info a = none := by
    intro a
    rw [UMap.find_eq_none_iff, UMap.find_eq_none_iff, h]
  cases e with
  | update_instance_info instance_info now =>
    simp only [LogEntry.apply, update_instance_info]
    by_cases hx : UMap.find s1._instance_info instance_info.address = none
    · simp [hx, (hfind _).mp hx]
    · have hx2 : ¬ UMap.find s2._instance_info instance_info.address = none :=
        fun h2 => hx ((hfind _).mpr h2)
      simp [hx, hx2]
  | set_dead_for_instance dead_instance =>
    simp only [LogEntry.apply, set_dead_for_instance]
    by_cases hx : UMap.find s1._instance_info dead_instance = none
    · simp [hx, (hfind _).mp hx]
    · have hx2 : ¬ UMap.find s2._instance_info dead_instance = none :=
        fun h2 => hx ((hfind _).mpr h2)
      simp [hx, hx2]
  | set_instance_regions inst instance_regions instance_regions_count => rfl

theorem apply_keys (e : LogEntry) (s : ClusterManager) :
    UMap.keys (e.apply s).2._instance_info = UMap.keys s._instance_info := by
  rw [apply_state]
  exact UMap.keys_modify _ _ _

theorem replay_keys (l : List LogEntry) :
    ∀ s : ClusterManager,
      UMap.keys (replay l s).2._instance_info = UMap.keys s._instance_info := by
  induction l with
  | nil => intro s; rfl
  | cons e t ih =>
    intro s
    simp only [replay]
    rw [ih, apply_keys]

theorem replay_codes_congr (l : List LogEntry) :
    ∀ s1 s2 : ClusterManager, UMap.keys s1._instance_info = UMap.keys s2._instance_info →
      (replay l s1).1 = (replay l s2).1 := by
  induction l with
  | nil => intro s1 s2 _; rfl
  | cons e t ih =>
    intro s1 s2 h
    simp only [replay]
    rw [apply_code_congr e s1 s2 h, ih (e.apply s1).2 (e.apply s2).2]
    rw [apply_keys, apply_keys, h]

/-- C6: replaying a sequence of applied `update_instance_info`, `set_dead_for_instance`
and `set_instance_regions` entries, each with its own arguments and clock reading, on
the state the sequence has produced gives the same state again and, entry by entry,
the return codes of the first pass. -/
theorem replay_twice_eq_once (l : List LogEntry) (s : ClusterManager) :
    replay l (replay l s).2 = replay l s := by
  apply Prod.ext
  · exact replay_codes_congr l _ _ (replay_keys l s)
  · rw [replay_state l (replay l s).2, replay_state l s]
    simp only
    rw [foldl_replay_absorb LogEntry.onInfo (fun _ _ => True) onInfo_idem
        (fun g h x y _ _ => onInfo_absorb g h x y) (fun _ _ _ _ => trivial)
        (fun _ _ => trivial),
      foldl_replay_absorb LogEntry.onRegions LogEntry.PresentIn
        (fun g x => onRegions_idem g x) (fun g h x y => onRegions_absorb g h x y)
        (fun e h x => presentIn_onRegions e h x) (fun e x => presentIn_self_onRegions e x),
      foldl_replay_absorb LogEntry.onCounts LogEntry.PresentIn
        (fun g x => onCounts_idem g x) (fun g h x y => onCounts_absorb g h x y)
        (fun e h x => presentIn_onCounts e h x) (fun e x => presentIn_self_onCounts e x)]

/-! ## The health state machine -/

theorem update_instance_info_registry (s : ClusterManager) (instance_info : InstanceInfo)
    (now : Int) :
    (update_instance_info s instance_info now).2._instance_info =
      UMap.modify s._instance_info instance_info.address
        (Instance.refreshed instance_info now) := by
  cases hx : UMap.find s._instance_info instance_info.address with
  | none => rw [update_instance_info_not_found s instance_info now hx, UMap.modify_absent _ _ _ hx]
  | some x => rw [update_instance_info_found s instance_info now x hx]

theorem set_dead_for_instance_registry (s : ClusterManager) (dead_instance : String) :
    (set_dead_for_instance s dead_instance).2._instance_info =
      UMap.modify s._instance_info dead_instance Instance.marked_dead := by
  cases hx : UMap.find s._instance_info dead_instance with
  | none => rw [set_dead_for_instance_not_found s dead_instance hx, UMap.modify_absent _ _ _ hx]
  | some x => rw [set_dead_for_instance_found s dead_instance x hx]

theorem sub_peer_count_registry (s : ClusterManager) (inst : String) (table_id : Int) :
    (sub_peer_count s inst table_id)._instance_info = s._instance_info := by
  dsimp only [sub_peer_count]
  split_ifs <;> rfl

theorem healthInv_run (c : Call) (s : ClusterManager) (h : HealthInv s) : HealthInv (c.run s) := by
  cases c with
  | update_instance_info instance_info now =>
    intro p hp
    simp only [Call.run, update_instance_info_registry] at hp
    rcases UMap.mem_modify _ _ _ p hp with hp | ⟨b, _, hb⟩
    · exact h p hp
    · rw [hb]
      exact ⟨Or.inl rfl, fun hd => by simp [Instance.refreshed] at hd⟩
  | set_dead_for_instance dead_instance =>
    intro p hp
    simp only [Call.run, set_dead_for_instance_registry] at hp
    rcases UMap.mem_modify _ _ _ p hp with hp | ⟨b, _, hb⟩
    · exact h p hp
    · rw [hb]
      exact ⟨Or.inr rfl, fun _ => rfl⟩
  | reset_instance_status clock =>
    intro p hp
    have hn := (reset_loop_info clock s._instance_info 0 _ _ p hp).1
    exact ⟨Or.inl hn, fun hd => by rw [hn] at hd; cases hd⟩
  | set_instance_regions inst instance_regions instance_regions_count => exact h
  | sub_peer_count inst table_id =>
    intro p hp
    simp only [Call.run, sub_peer_count_registry] at hp
    exact h p hp

theorem healthInv_runCalls (calls : List Call) :
    ∀ s : ClusterManager, HealthInv s → HealthInv (runCalls calls s) := by
  induction calls with
  | nil => intro s h; exact h
  | cons c t ih => intro s h; exact ih _ (healthInv_run c s h)

theorem healthInv_fresh (s : ClusterManager) (h : FreshRegistry s) : HealthInv s := by
  intro p hp
  rcases h p hp with ⟨instance_info, now, hx⟩ | ⟨now, capacity, used_size, hx⟩
  · rw [hx]
    exact ⟨Or.inl rfl, fun hd => by simp [Instance.ctor] at hd⟩
  · rw [hx]
    exact ⟨Or.inl rfl, fun hd => by simp [Instance.ctor_default] at hd⟩

/-- C9: in every state reachable from a registry of freshly constructed instances by
`update_instance_info`, `set_dead_for_instance`, `reset_instance_status`,
`set_instance_regions` and `sub_peer_count`, every instance is NORMAL or DEAD and every
DEAD instance has timestamp 0; and in any state an instance that is DEAD is still DEAD
after each of these calls other than `update_instance_info` for its own address and
`reset_instance_status`. -/
theorem health_state_machine (s : ClusterManager) (c : Call) (address : String) (x : Instance) :
    (Reachable s → HealthInv s) ∧
    (UMap.find s._instance_info address = some x → x.instance_status.state = Status.DEAD →
      ¬ c.revives address →
      ∃ y, UMap.find (c.run s)._instance_info address = some y ∧
        y.instance_status.state = Status.DEAD) := by
  constructor
  · rintro ⟨s0, calls, h0, rfl⟩
    exact healthInv_runCalls calls s0 (healthInv_fresh s0 h0)
  · intro hx hd hc
    cases c with
    | update_instance_info instance_info now =>
      have hne : address ≠ instance_info.address := fun e => hc e.symm
      refine ⟨x, ?_, hd⟩
      simp only [Call.run, update_instance_info_registry]
      rw [UMap.find_modify_ne _ _ _ _ hne, hx]
    | set_dead_for_instance dead_instance =>
      simp only [Call.run, set_dead_for_instance_registry]
      by_cases hk : address = dead_instance
      · subst hk
        exact ⟨Instance.marked_dead x, by rw [UMap.find_modify_self, hx]; rfl, rfl⟩
      · exact ⟨x, by rw [UMap.find_modify_ne _ _ _ _ hk, hx], hd⟩
    | reset_instance_status clock => exact absurd trivial hc
    | set_instance_regions inst instance_regions instance_regions_count => exact ⟨x, hx, hd⟩
    | sub_peer_count inst table_id =>
      exact ⟨x, by simp only [Call.run, sub_peer_count_registry]; exact hx, hd⟩

theorem fresh_state_fresh : FreshRegistry fresh_state := by
  intro p hp
  simp only [fresh_state, List.mem_cons, List.mem_singleton, List.not_mem_nil, or_false] at hp
  rcases hp with hp | hp <;> exact Or.inl ⟨_, _, by rw [hp]⟩

theorem health_state_machine_witness :
    Reachable sample_state ∧ HealthInv sample_state ∧
      ∃ y, UMap.find (Call.run (Call.update_instance_info unknown_info 77)
          sample_state)._instance_info "10.0.0.2:8110" = some y ∧
        y.instance_status.state = Status.DEAD :=
  have hr : Reachable sample_state :=
    ⟨fresh_state, [Call.set_dead_for_instance "10.0.0.2:8110"], fresh_state_fresh, by decide⟩
  ⟨hr,
    (health_state_machine sample_state (Call.update_instance_info unknown_info 77)
      "10.0.0.2:8110"
      (Instance.marked_dead (Instance.ctor ⟨"10.0.0.2:8110", 50, true, 3, "hdd", "room1"⟩ 9))).1
      hr,
    (health_state_machine sample_state (Call.update_instance_info unknown_info 77)
      "10.0.0.2:8110"
      (Instance.marked_dead (Instance.ctor ⟨"10.0.0.2:8110", 50, true, 3, "hdd", "room1"⟩ 9))).2
      (by decide) (by decide) (by simp [Call.revives, unknown_info])⟩

/-! ## The cluster-wide count after a reset -/

theorem reset_loop_counts_empty (clock : Nat → Int) (table_id : Int)
    (info : UMap String Instance) :
    ∀ (i : Nat) (regions : UMap String TableRegionMap) (counts : UMap String TableRegionCountMap),
      UMap.WF counts → (∀ p ∈ counts, UMap.find p.2 table_id = none ∨ p.1 ∈ UMap.keys info) →
        ∀ p ∈ (reset_instance_status_loop clock i info regions counts).2.2,
          UMap.find p.2 table_id = none := by
  induction info with
  | nil =>
    intro i regions counts _ h p hp
    rcases h p hp with h1 | h1
    · exact h1
    · simp [UMap.keys] at h1
  | cons q rest ih =>
    intro i regions counts hw h p hp
    simp only [reset_instance_status_loop] at hp
    refine ih (i + 1) _ _ (UMap.wf_assign counts q.1 [] hw) ?_ p hp
    intro r hr
    rcases UMap.mem_assign_of_wf counts q.1 [] r hw hr with h1 | ⟨h1, h2⟩
    · left
      rw [h1]
      rfl
    · rcases h r h1 with h3 | h3
      · exact Or.inl h3
      · right
        simp only [UMap.keys, List.map_cons, List.mem_cons] at h3
        rcases h3 with h3 | h3
        · exact absurd h3 h2
        · exact h3

theorem get_peer_count_table_loop_empty (table_id : Int)
    (counts : UMap String TableRegionCountMap) :
    ∀ count : Int, (∀ p ∈ counts, UMap.find p.2 table_id = none) →
      (get_peer_count_table_loop table_id counts count).1 = count := by
  induction counts with
  | nil => intro count _; rfl
  | cons q rest ih =>
    intro count h
    have hq : UMap.find q.2 table_id = none := h q (List.mem_cons_self _ _)
    have hrest : ∀ p ∈ rest, UMap.find p.2 table_id = none :=
      fun p hp => h p (List.mem_cons_of_mem _ hp)
    simp only [get_peer_count_table_loop, hq, ne_eq, not_true_eq_false, if_false]
    exact ih count hrest

/-- C10, amended: in every state (no address twice in the placement count index) and
for every table such that each address holding a count for the table in the placement
count index is in the instance registry, `get_peer_count(table_id)` is 0 right after
`reset_instance_status`. -/
theorem reset_clears_registered_counts (clock : Nat → Int) (s : ClusterManager) (table_id : Int)
    (hw : UMap.WF s._instance_regions_count_map)
    (hreg : ∀ p ∈ s._instance_regions_count_map,
      UMap.find p.2 table_id ≠ none → Registered s p.1) :
    (get_peer_count_table (reset_instance_status clock s) table_id).1 = 0 := by
  simp only [get_peer_count_table, reset_instance_status]
  apply get_peer_count_table_loop_empty
  apply reset_loop_counts_empty clock table_id s._instance_info 0 _ _ hw
  intro p hp
  by_cases hf : UMap.find p.2 table_id = none
  · exact Or.inl hf
  · exact Or.inr ((registered_iff_mem_keys s p.1).mp (hreg p hp hf))

theorem reset_clears_registered_counts_witness :
    UMap.WF sample_state._instance_regions_count_map ∧
      (∀ p ∈ sample_state._instance_regions_count_map,
        UMap.find p.2 1 ≠ none → Registered sample_state p.1) ∧
      (get_peer_count_table sample_state 1).1 = 2 ∧
      (get_peer_count_table (reset_instance_status (fun i => 1000 + i) sample_state) 1).1 = 0 :=
  ⟨by decide, by decide, by decide,
    reset_clears_registered_counts (fun i => 1000 + i) sample_state 1 (by decide) (by decide)⟩

/-- C10 as stated fails: `orphan_state` is reached from a fresh registry by one
`set_instance_regions` for an address that is not registered; `reset_instance_status`
walks the registry only, so the entry of that address stays and
`get_peer_count(1)` is 3 after the reset. -/
theorem reset_keeps_unregistered_counts :
    Reachable orphan_state ∧ ¬ Registered orphan_state "10.0.0.9:8110" ∧
      (get_peer_count_table (reset_instance_status (fun i => 1000 + i) orphan_state) 1).1 = 3 ∧
      ¬ (∀ (s : ClusterManager) (clock : Nat → Int) (table_id : Int), Reachable s →
        (get_peer_count_table (reset_instance_status clock s) table_id).1 = 0) := by
  have hr : Reachable orphan_state :=
    ⟨fresh_state, [Call.set_instance_regions "10.0.0.9:8110" [(1, [6, 7, 8])] [(1, 3)]],
      fresh_state_fresh, rfl⟩
  have h3 : (get_peer_count_table
      (reset_instance_status (fun i => 1000 + i) orphan_state) 1).1 = 3 := by decide
  refine ⟨hr, by decide, h3, ?_⟩
  intro h
  have h0 := h orphan_state (fun i => 1000 + i) 1 hr
  rw [h3] at h0
  exact absurd h0 (by decide)

/-! ## Frame of the health writes -/

/-- The state `update_instance_info` leaves, found or not. -/
theorem update_instance_info_state (s : ClusterManager) (instance_info : InstanceInfo)
    (now : Int) :
    (update_instance_info s instance_info now).2 =
      { s with
        _instance_info :=
          UMap.modify s._instance_info instance_info.address (Instance.refreshed instance_info now) } := by
  cases hx : UMap.find s._instance_info instance_info.address with
  | none => rw [update_instance_info_not_found s instance_info now hx, UMap.modify_absent _ _ _ hx]
  | some x => rw [update_instance_info_found s instance_info now x hx]

/-- The state `set_dead_for_instance` leaves, found or not. -/
theorem set_dead_for_instance_state (s : ClusterManager) (dead_instance : String) :
    (set_dead_for_instance s dead_instance).2 =
      { s with
        _instance_info := UMap.modify s._instance_info dead_instance Instance.marked_dead } := by
  cases hx : UMap.find s._instance_info dead_instance with
  | none => rw [set_dead_for_instance_not_found s dead_instance hx, UMap.modify_absent _ _ _ hx]
  | some x => rw [set_dead_for_instance_found s dead_instance x hx]

/-- C11: `update_instance_info` and `set_dead_for_instance` touch the target record
only: the record of every other address, the registered addresses, both maps of the
placement index, the rolling cursor and the room maps are unchanged; in the target
record the address and the physical room are kept by both, and capacity, used size
and resource tag are kept by `set_dead_for_instance`. -/
theorem health_writes_touch_target_only (s : ClusterManager) (instance_info : InstanceInfo)
    (now : Int) (dead_instance other : String) (x : Instance) :
    (other ≠ instance_info.address →
      UMap.find (update_instance_info s instance_info now).2._instance_info other =
        UMap.find s._instance_info other) ∧
    (other ≠ dead_instance →
      UMap.find (set_dead_for_instance s dead_instance).2._instance_info other =
        UMap.find s._instance_info other) ∧
    (UMap.keys (update_instance_info s instance_info now).2._instance_info =
        UMap.keys s._instance_info ∧
      (update_instance_info s instance_info now).2._instance_regions_map =
        s._instance_regions_map ∧
      (update_instance_info s instance_info now).2._instance_regions_count_map =
        s._instance_regions_count_map ∧
      (update_instance_info s instance_info now).2._last_rolling_instance =
        s._last_rolling_instance ∧
      (update_instance_info s instance_info now).2._physical_info = s._physical_info ∧
      (update_instance_info s instance_info now).2._logical_physical_map =
        s._logical_physical_map) ∧
    (UMap.keys (set_dead_for_instance s dead_instance).2._instance_info =
        UMap.keys s._instance_info ∧
      (set_dead_for_instance s dead_instance).2._instance_regions_map =
        s._instance_regions_map ∧
      (set_dead_for_instance s dead_instance).2._instance_regions_count_map =
        s._instance_regions_count_map ∧
      (set_dead_for_instance s dead_instance).2._last_rolling_instance =
        s._last_rolling_instance ∧
      (set_dead_for_instance s dead_instance).2._physical_info = s._physical_info ∧
      (set_dead_for_instance s dead_instance).2._logical_physical_map =
        s._logical_physical_map) ∧
    (UMap.find s._instance_info instance_info.address = some x →
      ∃ y, UMap.find (update_instance_info s instance_info now).2._instance_info
          instance_info.address = some y ∧
        y.address = x.address ∧ y.physical_room = x.physical_room) ∧
    (UMap.find s._instance_info dead_instance = some x →
      ∃ y, UMap.find (set_dead_for_instance s dead_instance).2._instance_info
          dead_instance = some y ∧
        y.address = x.address ∧ y.physical_room = x.physical_room ∧
        y.capacity = x.capacity ∧ y.used_size = x.used_size ∧
        y.resource_tag = x.resource_tag) := by
  rw [update_instance_info_state, set_dead_for_instance_state]
  refine ⟨?_, ?_, ⟨?_, rfl, rfl, rfl, rfl, rfl⟩, ⟨?_, rfl, rfl, rfl, rfl, rfl⟩, ?_, ?_⟩
  · intro hne
    exact UMap.find_modify_ne _ _ _ _ hne
  · intro hne
    exact UMap.find_modify_ne _ _ _ _ hne
  · exact UMap.keys_modify _ _ _
  · exact UMap.keys_modify _ _ _
  · intro hx
    refine ⟨Instance.refreshed instance_info now x, ?_, rfl, rfl⟩
    simp only [UMap.find_modify_self, hx, Option.map_some']
  · intro hx
    refine ⟨Instance.marked_dead x, ?_, rfl, rfl, rfl, rfl, rfl⟩
    simp only [UMap.find_modify_self, hx, Option.map_some']

theorem health_writes_touch_target_only_witness :
    UMap.find (update_instance_info sample_state sample_info 1234).2._instance_info
        "10.0.0.1:8110" = UMap.find sample_state._instance_info "10.0.0.1:8110" ∧
      UMap.find (set_dead_for_instance sample_state "10.0.0.1:8110").2._instance_info
        "10.0.0.2:8110" = UMap.find sample_state._instance_info "10.0.0.2:8110" ∧
      (∃ y, UMap.find (update_instance_info sample_state sample_info 1234).2._instance_info
          sample_info.address = some y ∧
        y.address = "10.0.0.2:8110" ∧ y.physical_room = "room1") ∧
      ∃ y, UMap.find (set_dead_for_instance sample_state "10.0.0.2:8110").2._instance_info
          "10.0.0.2:8110" = some y ∧
        y.address = "10.0.0.2:8110" ∧ y.physical_room = "room1" ∧
        y.capacity = 50 ∧ y.used_size = 3 ∧ y.resource_tag = "hdd" :=
  have h := health_writes_touch_target_only sample_state sample_info 1234 "10.0.0.2:8110"
    "10.0.0.1:8110"
    (Instance.marked_dead (Instance.ctor ⟨"10.0.0.2:8110", 50, true, 3, "hdd", "room1"⟩ 9))
  have h2 := health_writes_touch_target_only sample_state sample_info 1234 "10.0.0.1:8110"
    "10.0.0.2:8110"
    (Instance.marked_dead (Instance.ctor ⟨"10.0.0.2:8110", 50, true, 3, "hdd", "room1"⟩ 9))
  ⟨h.1 (by decide), h2.2.1 (by decide), h.2.2.2.2.1 (by decide), h.2.2.2.2.2 (by decide)⟩

/-! ## Membership under the placement and leadership calls -/

theorem reset_loop_record (clock : Nat → Int) (info : UMap String Instance) (address : String)
    (x : Instance) :
    ∀ (i : Nat) (regions : UMap String TableRegionMap) (counts : UMap String TableRegionCountMap),
      UMap.find info address = some x →
        ∃ y, UMap.find (reset_instance_status_loop clock i info regions counts).1 address =
            some y ∧
          y.address = x.address ∧ y.capacity = x.capacity ∧ y.used_size = x.used_size ∧
          y.resource_tag = x.resource_tag ∧ y.physical_room = x.physical_room := by
  induction info with
  | nil => intro i regions counts h; simp [UMap.find] at h
  | cons q rest ih =>
    intro i regions counts h
    obtain ⟨a, b⟩ := q
    by_cases hk : a = address
    · have hb : b = x := by simpa [UMap.find, hk] using h
      subst hb
      refine ⟨{ b with instance_status := { timestamp := clock i, state := Status.NORMAL } },
        ?_, rfl, rfl, rfl, rfl, rfl⟩
      simp only [reset_instance_status_loop, UMap.find, hk, if_true]
    · have h2 : UMap.find rest address = some x := by simpa [UMap.find, hk] using h
      obtain ⟨y, hy, hrest⟩ := ih (i + 1) (UMap.assign regions a []) (UMap.assign counts a []) h2
      refine ⟨y, ?_, hrest⟩
      simp only [reset_instance_status_loop, UMap.find, hk, if_false]
      exact hy

/-- C12: `set_instance_regions` and `sub_peer_count` leave the instance registry as it
is, for every address argument; `reset_instance_status` leaves the registered
addresses as they are and, in every record, the address, capacity, used size,
resource tag and physical room. -/
theorem membership_kept (s : ClusterManager) (inst : String) (instance_regions : TableRegionMap)
    (instance_regions_count : TableRegionCountMap) (table_id : Int) (clock : Nat → Int)
    (address : String) (x : Instance) :
    (set_instance_regions s inst instance_regions instance_regions_count)._instance_info =
      s._instance_info ∧
    (sub_peer_count s inst table_id)._instance_info = s._instance_info ∧
    UMap.keys (reset_instance_status clock s)._instance_info = UMap.keys s._instance_info ∧
    (Registered (reset_instance_status clock s) address ↔ Registered s address) ∧
    (UMap.find s._instance_info address = some x →
      ∃ y, UMap.find (reset_instance_status clock s)._instance_info address = some y ∧
        y.address = x.address ∧ y.capacity = x.capacity ∧ y.used_size = x.used_size ∧
        y.resource_tag = x.resource_tag ∧ y.physical_room = x.physical_room) := by
  have hkeys : UMap.keys (reset_instance_status clock s)._instance_info =
      UMap.keys s._instance_info := by
    simp only [reset_instance_status, reset_loop_keys]
  refine ⟨rfl, sub_peer_count_registry s inst table_id, hkeys, ?_, ?_⟩
  · rw [registered_iff_mem_keys, registered_iff_mem_keys, hkeys]
  · intro hx
    exact reset_loop_record clock s._instance_info address x 0 _ _ hx

theorem membership_kept_witness :
    ¬ Registered sample_state "10.0.0.9:8110" ∧
      (set_instance_regions sample_state "10.0.0.9:8110" [(1, [6])] [(1, 1)])._instance_info =
        sample_state._instance_info ∧
      (sub_peer_count sample_state "10.0.0.1:8110" 1)._instance_info =
        sample_state._instance_info ∧
      ∃ y, UMap.find (reset_instance_status (fun i => 1000 + i) sample_state)._instance_info
          "10.0.0.2:8110" = some y ∧
        y.address = "10.0.0.2:8110" ∧ y.capacity = 50 ∧ y.used_size = 3 ∧
        y.resource_tag = "hdd" ∧ y.physical_room = "room1" :=
  ⟨by decide,
    (membership_kept sample_state "10.0.0.9:8110" [(1, [6])] [(1, 1)] 1 (fun i => 1000 + i)
      "10.0.0.2:8110"
      (Instance.marked_dead (Instance.ctor ⟨"10.0.0.2:8110", 50, true, 3, "hdd", "room1"⟩ 9))).1,
    (membership_kept sample_state "10.0.0.1:8110" [(1, [6])] [(1, 1)] 1 (fun i => 1000 + i)
      "10.0.0.2:8110"
      (Instance.marked_dead (Instance.ctor ⟨"10.0.0.2:8110", 50, true, 3, "hdd", "room1"⟩ 9))).2.1,
    (membership_kept sample_state "10.0.0.1:8110" [(1, [6])] [(1, 1)] 1 (fun i => 1000 + i)
      "10.0.0.2:8110"
      (Instance.marked_dead
        (Instance.ctor ⟨"10.0.0.2:8110", 50, true, 3, "hdd", "room1"⟩ 9))).2.2.2.2
      (by decide)⟩

/-! ## Arithmetic on `int64_t` -/

theorem wrap_int64_of_range (x : Int) (h1 : -(2 ^ 63) ≤ x) (h2 : x < 2 ^ 63) :
    wrap_int64 x = x := by
  unfold wrap_int64
  omega

theorem wrap_int64_range (x : Int) : -(2 ^ 63) ≤ wrap_int64 x ∧ wrap_int64 x < 2 ^ 63 := by
  unfold wrap_int64
  omega

theorem wrap_int64_add_left (x y : Int) : wrap_int64 (wrap_int64 x + y) = wrap_int64 (x + y) := by
  unfold wrap_int64
  omega

/-! ## `sub_peer_count` -/

theorem modify_congr_found {K V : Type} [DecidableEq K] (m : UMap K V) (k : K) (f g : V → V)
    (v : V) (h : UMap.find m k = some v) (hfg : f v = g v) :
    UMap.modify m k f = UMap.modify m k g := by
  induction m with
  | nil => rfl
  | cons p rest ih =>
    obtain ⟨a, b⟩ := p
    by_cases hk : a = k
    · have hb : b = v := by simpa [UMap.find, hk] using h
      simp [UMap.modify, hk, hb, hfg]
    · have h2 : UMap.find rest k = some v := by simpa [UMap.find, hk] using h
      simp [UMap.modify, hk, ih h2]

theorem sub_peer_count_found (s : ClusterManager) (inst : String) (table_id : Int)
    (m : TableRegionCountMap) (c : Int)
    (hm : UMap.find s._instance_regions_count_map inst = some m)
    (hc : UMap.find m table_id = some c) :
    sub_peer_count s inst table_id =
      { s with
        _instance_regions_count_map :=
          UMap.modify s._instance_regions_count_map inst
            (fun t => UMap.modify t table_id (fun c => wrap_int64 (c - 1))) } := by
  have hsub : UMap.subscript s._instance_regions_count_map inst []
      (fun t => UMap.subscript t table_id 0 (fun c => wrap_int64 (c - 1))) =
      UMap.modify s._instance_regions_count_map inst
        (fun t => UMap.modify t table_id (fun c => wrap_int64 (c - 1))) := by
    rw [UMap.subscript_eq_modify _ _ _ _ (by simp [hm])]
    exact modify_congr_found _ inst _ _ m hm
      (UMap.subscript_eq_modify m table_id 0 _ (by simp [hc]))
  simp only [sub_peer_count, hm, UMap.read_found _ inst [] m hm, hc, hsub]
  simp

theorem sub_peer_count_absent (s : ClusterManager) (inst : String) (table_id : Int)
    (h : UMap.find s._instance_regions_count_map inst = none) :
    sub_peer_count s inst table_id = s := by
  simp [sub_peer_count, h]

theorem sub_peer_count_no_table (s : ClusterManager) (inst : String) (table_id : Int)
    (m : TableRegionCountMap)
    (hm : UMap.find s._instance_regions_count_map inst = some m)
    (hc : UMap.find m table_id = none) :
    sub_peer_count s inst table_id = s := by
  simp [sub_peer_count, hm, UMap.read_found _ inst [] m hm, hc]

theorem sub_peer_count_regions (s : ClusterManager) (inst : String) (table_id : Int) :
    (sub_peer_count s inst table_id)._instance_regions_map = s._instance_regions_map := by
  dsimp only [sub_peer_count]
  split_ifs <;> rfl

theorem sub_peer_count_other (s : ClusterManager) (inst : String) (table_id : Int)
    (other : String) (table2 : Int) (hne : other ≠ inst ∨ table2 ≠ table_id) :
    peer_count_of (sub_peer_count s inst table_id)._instance_regions_count_map other table2 =
      peer_count_of s._instance_regions_count_map other table2 := by
  cases hm : UMap.find s._instance_regions_count_map inst with
  | none => rw [sub_peer_count_absent s inst table_id hm]
  | some m =>
    cases hc : UMap.find m table_id with
    | none => rw [sub_peer_count_no_table s inst table_id m hm hc]
    | some c =>
      rw [sub_peer_count_found s inst table_id m c hm hc]
      by_cases hj : other = inst
      · subst hj
        have ht : table2 ≠ table_id := by
          rcases hne with h | h
          · exact absurd rfl h
          · exact h
        simp only [peer_count_of, UMap.find_modify_self, hm, Option.map_some',
          UMap.find_modify_ne _ _ _ _ ht]
      · simp only [peer_count_of, UMap.find_modify_ne _ _ _ _ hj]

/-- C13: when the placement index holds a count `c` for the instance and the table,
`sub_peer_count` leaves the `int64_t` decrement of `c` there, which is `c - 1` for every
`c` above the least `int64_t` (0 becomes -1: nothing clamps at zero); every other
count and both region maps are as before; when the instance or the table has no
count the state is as before, so no entry is created. -/
theorem sub_peer_count_decrements (s : ClusterManager) (inst : String) (table_id : Int)
    (m : TableRegionCountMap) (c : Int) (other : String) (table2 : Int) :
    (UMap.find s._instance_regions_count_map inst = some m → UMap.find m table_id = some c →
      (get_peer_count (sub_peer_count s inst table_id) inst table_id).1 = wrap_int64 (c - 1) ∧
      (-(2 ^ 63) < c → c < 2 ^ 63 →
        (get_peer_count (sub_peer_count s inst table_id) inst table_id).1 = c - 1)) ∧
    ((other ≠ inst ∨ table2 ≠ table_id) →
      (get_peer_count (sub_peer_count s inst table_id) other table2).1 =
        (get_peer_count s other table2).1) ∧
    (sub_peer_count s inst table_id)._instance_regions_map = s._instance_regions_map ∧
    (UMap.find s._instance_regions_count_map inst = none → sub_peer_count s inst table_id = s) ∧
    (UMap.find s._instance_regions_count_map inst = some m → UMap.find m table_id = none →
      sub_peer_count s inst table_id = s) := by
  refine ⟨?_, ?_, sub_peer_count_regions s inst table_id, sub_peer_count_absent s inst table_id,
    sub_peer_count_no_table s inst table_id m⟩
  · intro hm hc
    have hval : (get_peer_count (sub_peer_count s inst table_id) inst table_id).1 =
        wrap_int64 (c - 1) := by
      rw [get_peer_count_eq, sub_peer_count_found s inst table_id m c hm hc]
      simp only [peer_count_of, UMap.find_modify_self, hm, hc, Option.map_some', Option.getD_some]
    refine ⟨hval, ?_⟩
    intro h1 h2
    rw [hval]
    exact wrap_int64_of_range (c - 1) (by omega) (by omega)
  · intro hne
    rw [get_peer_count_eq, get_peer_count_eq]
    exact sub_peer_count_other s inst table_id other table2 hne

theorem sub_peer_count_decrements_witness :
    (get_peer_count zero_count_state "10.0.0.1:8110" 1).1 = 0 ∧
      (get_peer_count (sub_peer_count zero_count_state "10.0.0.1:8110" 1)
        "10.0.0.1:8110" 1).1 = 0 - 1 ∧
      (get_peer_count (sub_peer_count sample_state "10.0.0.1:8110" 1)
        "10.0.0.1:8110" 1).1 = 2 - 1 ∧
      sub_peer_count sample_state "10.0.0.2:8110" 1 = sample_state ∧
      sub_peer_count sample_state "10.0.0.1:8110" 9 = sample_state :=
  ⟨by decide,
    ((sub_peer_count_decrements zero_count_state "10.0.0.1:8110" 1 [(1, 0)] 0
      "10.0.0.2:8110" 1).1 (by decide) (by decide)).2 (by decide) (by decide),
    ((sub_peer_count_decrements sample_state "10.0.0.1:8110" 1 [(1, 2)] 2
      "10.0.0.2:8110" 1).1 (by decide) (by decide)).2 (by decide) (by decide),
    (sub_peer_count_decrements sample_state "10.0.0.2:8110" 1 [(1, 2)] 2
      "10.0.0.1:8110" 1).2.2.2.1 (by decide),
    (sub_peer_count_decrements sample_state "10.0.0.1:8110" 9 [(1, 2)] 2
      "10.0.0.2:8110" 1).2.2.2.2 (by decide) (by decide)⟩

/-! ## The queries -/

theorem get_peer_count_table_loop_state (table_id : Int)
    (counts : UMap String TableRegionCountMap) :
    ∀ count : Int, (get_peer_count_table_loop table_id counts count).2 = counts := by
  induction counts with
  | nil => intro count; rfl
  | cons q rest ih =>
    intro count
    obtain ⟨a, m⟩ := q
    cases hf : UMap.find m table_id with
    | none => simp [get_peer_count_table_loop, hf, ih]
    | some v => simp [get_peer_count_table_loop, hf, ih, UMap.read_found m table_id 0 v hf]

/-- C15: the three queries leave the whole state as it is, for every state and all
arguments; an absent instance or table gets no default entry in the instance registry
or the placement index. -/
theorem queries_read_only (s : ClusterManager) (resource_tag inst : String) (table_id : Int) :
    (get_instance_count s resource_tag).2 = s ∧
    (get_peer_count_table s table_id).2 = s ∧
    (get_peer_count s inst table_id).2 = s := by
  refine ⟨rfl, ?_, ?_⟩
  · simp only [get_peer_count_table, get_peer_count_table_loop_state]
  · rw [get_peer_count_eq]

/-! ## The cluster-wide count and the per-instance counts -/

theorem find_of_mem_wf {K V : Type} [DecidableEq K] (m : UMap K V) (hw : UMap.WF m) (p : K × V)
    (hp : p ∈ m) : UMap.find m p.1 = some p.2 := by
  induction m with
  | nil => simp at hp
  | cons q rest ih =>
    obtain ⟨a, b⟩ := q
    have hw2 : a ∉ UMap.keys rest ∧ UMap.WF rest := by
      simpa [UMap.WF, UMap.keys] using hw
    rcases List.mem_cons.mp hp with h | h
    · subst h
      simp [UMap.find]
    · have hne : ¬ a = p.1 := by
        intro he
        apply hw2.1
        rw [he]
        exact UMap.mem_keys_of_mem rest p h
      simp only [UMap.find, hne, if_false]
      exact ih hw2.2 h

theorem get_peer_count_table_loop_range (table_id : Int)
    (counts : UMap String TableRegionCountMap) :
    ∀ count : Int, -(2 ^ 63) ≤ count → count < 2 ^ 63 →
      -(2 ^ 63) ≤ (get_peer_count_table_loop table_id counts count).1 ∧
        (get_peer_count_table_loop table_id counts count).1 < 2 ^ 63 := by
  induction counts with
  | nil => intro count h1 h2; exact ⟨h1, h2⟩
  | cons q rest ih =>
    intro count h1 h2
    obtain ⟨a, m⟩ := q
    cases hf : UMap.find m table_id with
    | none =>
      simp only [get_peer_count_table_loop, hf, ne_eq, not_true_eq_false, if_false]
      exact ih count h1 h2
    | some v =>
      simp only [get_peer_count_table_loop, hf, ne_eq, reduceCtorEq, not_false_eq_true, if_true]
      exact ih _ (wrap_int64_range _).1 (wrap_int64_range _).2

theorem get_peer_count_table_loop_sum (table_id : Int)
    (counts : UMap String TableRegionCountMap) :
    ∀ count : Int, wrap_int64 (get_peer_count_table_loop table_id counts count).1 =
      wrap_int64 (count + (counts.map (fun p => (UMap.find p.2 table_id).getD 0)).sum) := by
  induction counts with
  | nil => intro count; simp [get_peer_count_table_loop]
  | cons q rest ih =>
    intro count
    obtain ⟨a, m⟩ := q
    cases hf : UMap.find m table_id with
    | none =>
      simp only [get_peer_count_table_loop, hf, ne_eq, not_true_eq_false, if_false,
        List.map_cons, List.sum_cons, Option.getD_none, zero_add]
      exact ih count
    | some v =>
      simp only [get_peer_count_table_loop, hf, ne_eq, reduceCtorEq, not_false_eq_true, if_true,
        List.map_cons, List.sum_cons, Option.getD_some, UMap.read_found m table_id 0 v hf]
      rw [ih, wrap_int64_add_left, add_assoc]

theorem peer_count_sum_eq (s : ClusterManager) (table_id : Int)
    (hw : UMap.WF s._instance_regions_count_map) :
    peer_count_sum s table_id =
      (s._instance_regions_count_map.map (fun p => (UMap.find p.2 table_id).getD 0)).sum := by
  unfold peer_count_sum UMap.keys
  rw [List.map_map]
  congr 1
  apply List.map_congr_left
  intro p hp
  simp only [Function.comp, get_peer_count_eq, peer_count_of,
    find_of_mem_wf s._instance_regions_count_map hw p hp]

/-- C14: in every state (no address twice in the placement count index) and for every
table, `get_peer_count(table_id)` is the `int64_t` sum, over the addresses of the
placement count index, of `get_peer_count(address, table_id)`: the sum itself whenever
the sum is an `int64_t`. -/
theorem peer_count_table_eq_sum (s : ClusterManager) (table_id : Int)
    (hw : UMap.WF s._instance_regions_count_map) :
    (get_peer_count_table s table_id).1 = wrap_int64 (peer_count_sum s table_id) ∧
    (-(2 ^ 63) ≤ peer_count_sum s table_id → peer_count_sum s table_id < 2 ^ 63 →
      (get_peer_count_table s table_id).1 = peer_count_sum s table_id) := by
  have hrange := get_peer_count_table_loop_range table_id s._instance_regions_count_map 0
    (by omega) (by omega)
  have hsum := get_peer_count_table_loop_sum table_id s._instance_regions_count_map 0
  rw [wrap_int64_of_range _ hrange.1 hrange.2, zero_add, ← peer_count_sum_eq s table_id hw] at hsum
  have hval : (get_peer_count_table s table_id).1 = wrap_int64 (peer_count_sum s table_id) := hsum
  refine ⟨hval, ?_⟩
  intro h1 h2
  rw [hval, wrap_int64_of_range _ h1 h2]

theorem peer_count_table_eq_sum_witness :
    UMap.WF two_store_state._instance_regions_count_map ∧
      peer_count_sum two_store_state 1 = 7 ∧
      (get_peer_count_table two_store_state 1).1 = peer_count_sum two_store_state 1 :=
  ⟨by decide, by decide,
    (peer_count_table_eq_sum two_store_state 1 (by decide)).2 (by decide) (by decide)⟩

/-! ## Creating and refreshing -/

/-- C16 fails on the code for a request without `used_size`: for `sample_info`
(capacity 80, field not set, `used_size()` 0) the constructor stores the capacity, 80,
as used size, and `update_instance_info` on the registered store stores 0; capacity
and resource tag agree. -/
theorem refresh_differs_from_ctor_without_used_size :
    sample_info.has_used_size = false ∧ Registered sample_state sample_info.address ∧
      (Instance.ctor sample_info 1234).used_size = 80 ∧
      ∃ y, UMap.find (update_instance_info sample_state sample_info 1234).2._instance_info
          sample_info.address = some y ∧
        y.used_size = 0 ∧ y.capacity = (Instance.ctor sample_info 1234).capacity ∧
        y.resource_tag = (Instance.ctor sample_info 1234).resource_tag := by
  refine ⟨by decide, by decide, by decide, Instance.refreshed sample_info 1234
    (Instance.marked_dead (Instance.ctor ⟨"10.0.0.2:8110", 50, true, 3, "hdd", "room1"⟩ 9)),
    by decide, by decide, by decide, by decide⟩

/-- Where the request carries `used_size`, the constructor and `update_instance_info`
store the same capacity, used size and resource tag. -/
theorem refresh_agrees_with_ctor_with_used_size (s : ClusterManager)
    (instance_info : InstanceInfo) (now1 now2 : Int)
    (hreg : Registered s instance_info.address) (hu : instance_info.has_used_size = true) :
    ∃ y, UMap.find (update_instance_info s instance_info now2).2._instance_info
        instance_info.address = some y ∧
      y.capacity = (Instance.ctor instance_info now1).capacity ∧
      y.used_size = (Instance.ctor instance_info now1).used_size ∧
      y.resource_tag = (Instance.ctor instance_info now1).resource_tag := by
  obtain ⟨x, hx⟩ := Option.ne_none_iff_exists'.mp hreg
  rw [update_instance_info_found s instance_info now2 x hx]
  refine ⟨Instance.refreshed instance_info now2 x, ?_, ?_, ?_, ?_⟩
  · simp only [UMap.find_modify_self, hx, Option.map_some']
  · simp [Instance.refreshed, Instance.ctor, hu]
  · simp [Instance.refreshed, Instance.ctor, hu]
  · simp [Instance.refreshed, Instance.ctor, hu]

/-! ## Snapshot key of the logical rooms -/

/-- C18, amended: the key of the logical room record is the cluster prefix, then the
logical marker, then the constant `MetaServer::LOGICAL_KEY`; the builder takes no room
name, and what follows the two markers in the key is that constant. -/
theorem logical_key_layout (ms : MetaServer) :
    construct_logical_key ms =
      ms.CLUSTER_IDENTIFY ++ ms.LOGICAL_CLUSTER_IDENTIFY ++ ms.LOGICAL_KEY ∧
    strip_leading (ms.CLUSTER_IDENTIFY ++ ms.LOGICAL_CLUSTER_IDENTIFY)
      (construct_logical_key ms) = ms.LOGICAL_KEY :=
  ⟨rfl, strip_leading_append _ _⟩

/-- C18 as stated fails: `construct_logical_key()` has no room name to put in the key,
so its one key cannot be the prefix, the marker and the name for the two rooms
`logical1` and `logical2`. -/
theorem logical_key_has_no_name :
    ¬ (∀ (ms : MetaServer) (name : String),
      construct_logical_key ms = ms.CLUSTER_IDENTIFY ++ ms.LOGICAL_CLUSTER_IDENTIFY ++ name) := by
  intro h
  have h1 := h sample_meta_server "logical1"
  have h2 := h sample_meta_server "logical2"
  rw [h1] at h2
  exact absurd (string_append_cancel_left _ _ _ h2) (by decide)

/-! ## `get_instance_count` -/

theorem get_instance_count_loop_eq (resource_tag : String) (m : UMap String Instance) :
    ∀ count : Int, 0 ≤ count → count + m.length < 2 ^ 63 →
      get_instance_count_loop resource_tag m count =
        count + ((m.filter (fun p => decide (p.2.resource_tag = resource_tag))).length : Int) := by
  induction m with
  | nil => intro count _ _; simp [get_instance_count_loop]
  | cons q rest ih =>
    intro count h0 hlen
    simp only [List.length_cons, Nat.cast_add, Nat.cast_one] at hlen
    by_cases ht : q.2.resource_tag = resource_tag
    · simp only [get_instance_count_loop, ht, if_true, List.filter_cons, decide_True,
        List.length_cons, Nat.cast_add, Nat.cast_one]
      rw [wrap_int64_of_range (count + 1) (by omega) (by omega), ih (count + 1) (by omega) (by omega)]
      omega
    · simp only [get_instance_count_loop, ht, if_false, List.filter_cons, decide_False]
      exact ih count h0 (by omega)

theorem get_instance_count_loop_marked_dead (resource_tag : String) (k : String)
    (m : UMap String Instance) :
    ∀ count : Int, get_instance_count_loop resource_tag (UMap.modify m k Instance.marked_dead) count =
      get_instance_count_loop resource_tag m count := by
  induction m with
  | nil => intro count; rfl
  | cons q rest ih =>
    intro count
    obtain ⟨a, b⟩ := q
    by_cases hk : a = k
    · simp only [UMap.modify, hk, if_true, get_instance_count_loop, Instance.marked_dead]
    · simp only [UMap.modify, hk, if_false, get_instance_count_loop, ih]

theorem instances_with_tag_eq_count (s : ClusterManager) (resource_tag : String) :
    instances_with_tag s resource_tag = (registry_tags s).count resource_tag := by
  unfold instances_with_tag registry_tags
  rw [List.count, List.countP_map, List.countP_eq_length_filter]
  congr 2

theorem get_instance_count_eq (s : ClusterManager) (resource_tag : String)
    (hlen : s._instance_info.length < 2 ^ 63) :
    (get_instance_count s resource_tag).1 = (instances_with_tag s resource_tag : Int) := by
  have h := get_instance_count_loop_eq resource_tag s._instance_info 0 (le_refl 0)
    (by
      have : ((s._instance_info.length : Nat) : Int) < 2 ^ 63 := by exact_mod_cast hlen
      omega)
  simp only [get_instance_count, instances_with_tag, h, zero_add]

/-- C17: for a registry of fewer than 2^63 entries, `get_instance_count(resource_tag)`
is the number of registered instances whose resource tag is exactly `resource_tag`,
whatever their status: `set_dead_for_instance` does not change it, the empty tag
counts the instances with an empty tag only, and the counts of the distinct tags of
the registry add up to the number of registered instances. -/
theorem instance_count_by_tag (s : ClusterManager) (resource_tag dead_instance : String)
    (hlen : s._instance_info.length < 2 ^ 63) :
    (get_instance_count s resource_tag).1 = (instances_with_tag s resource_tag : Int) ∧
    (get_instance_count (set_dead_for_instance s dead_instance).2 resource_tag).1 =
      (get_instance_count s resource_tag).1 ∧
    (get_instance_count s "").1 =
      ((s._instance_info.filter (fun p => decide (p.2.resource_tag = ""))).length : Int) ∧
    ((registry_tags s).dedup.map (fun t => (get_instance_count s t).1)).sum =
      (s._instance_info.length : Int) := by
  refine ⟨get_instance_count_eq s resource_tag hlen, ?_, get_instance_count_eq s "" hlen, ?_⟩
  · simp only [get_instance_count, set_dead_for_instance_registry,
      get_instance_count_loop_marked_dead]
  · have hsum := List.sum_map_count_dedup_eq_length (registry_tags s)
    have hmap : (registry_tags s).dedup.map (fun t => (get_instance_count s t).1) =
        ((registry_tags s).dedup.map (fun t => (registry_tags s).count t)).map
          (fun n : Nat => (n : Int)) := by
      rw [List.map_map]
      apply List.map_congr_left
      intro t _
      simp only [Function.comp, get_instance_count_eq s t hlen, instances_with_tag_eq_count]
    have hcast : ∀ l : List Nat, (l.map (fun n : Nat => (n : Int))).sum = ((l.sum : Nat) : Int) := by
      intro l
      induction l with
      | nil => rfl
      | cons a t ih => simp only [List.map_cons, List.sum_cons, Nat.cast_add, ih]
    rw [hmap, hcast, hsum]
    simp [registry_tags]

theorem instance_count_by_tag_witness :
    (get_instance_count sample_state "hdd").1 = 1 ∧
      (get_instance_count (set_dead_for_instance sample_state "10.0.0.1:8110").2 "ssd").1 =
        (get_instance_count sample_state "ssd").1 ∧
      (get_instance_count sample_state "").1 = 0 ∧
      ((registry_tags sample_state).dedup.map
        (fun t => (get_instance_count sample_state t).1)).sum = 2 :=
  have h := instance_count_by_tag sample_state "hdd" "10.0.0.1:8110" (by decide)
  have h2 := instance_count_by_tag sample_state "ssd" "10.0.0.1:8110" (by decide)
  ⟨h.1, h2.2.1, h.2.2.1, h.2.2.2⟩

end baikaldb
